import Mathlib

/-!
Verification development for the lazygit-lite commit-graph engine.

The definitions below are a shallow embedding of the Go source:
internal/ui/components/graph/renderer.go (lane layout, diff parsing and
side-by-side pairing) and internal/ui/components/graph/graph.go (the
navigation model).  Machine integers of the source (Go int) are modelled
as Int; Go slices become Lists; Go maps become lookup functions.  Color
styling applied through the terminal styling library is a presentation
concern and is not modelled; every structural datum the source computes
(line numbers, texts, kinds, row counts, lane tables) is kept.
-/

namespace LG

/-! ## Diff data model (renderer.go) -/

/-- One line of a parsed unified diff: kind is one of the Go byte tags
(space = context, plus = add, minus = remove, at = hunk header, backslash
= no-newline marker). -/
structure DiffLine where
  kind : Char
  content : String
  oldNum : Int
  newNum : Int
deriving DecidableEq, Repr, Inhabited

/-- Tokens of a scan format string as used by the fmt.Sscanf calls in
parseHunkHeader: a literal run, a whitespace run, or a decimal verb. -/
inductive ScanTok where
  | lit (s : String)
  | ws
  | num
deriving DecidableEq, Repr

/-- Skip blank characters, as the scanner does for a whitespace run in the
format and before a decimal verb. -/
def dropSpaces : List Char → List Char
  | ' ' :: rest => dropSpaces rest
  | '\t' :: rest => dropSpaces rest
  | cs => cs

/-- Match the characters of a literal format run exactly against the input,
returning the remaining input on success. -/
def stripLit : List Char → List Char → Option (List Char)
  | [], s => some s
  | c :: cs, d :: ds => if c = d then stripLit cs ds else none
  | _ :: _, [] => none

/-- Scan one decimal integer the way the %d verb does: skip blanks, accept
an optional sign, then at least one digit. -/
def scanInt (s : List Char) : Option (Int × List Char) :=
  let s0 := dropSpaces s
  let signed : Int × List Char :=
    match s0 with
    | '-' :: rest => (-1, rest)
    | '+' :: rest => (1, rest)
    | _ => (1, s0)
  let digits := signed.2.takeWhile Char.isDigit
  let rest := signed.2.dropWhile Char.isDigit
  if digits = [] then none
  else some (signed.1 * ((digits.foldl (fun acc c => acc * 10 + (c.toNat - 48)) 0 : Nat) : Int), rest)

/-- The successfully scanned integer prefix of a format applied to an
input, in order.  Scanning stops at the first mismatch; integers parsed
before the mismatch are kept, exactly as fmt.Sscanf stores values through
its argument pointers up to the first error.  A space run in the format
must consume at least one input blank unless the input is exhausted (fmt's
"expected space in input to match format" in ss.advance): on any other
input character, including a newline, the scan stops at that point. -/
def sscanf : List ScanTok → List Char → List Int
  | [], _ => []
  | ScanTok.lit l :: toks, s =>
    match stripLit l.data s with
    | some s2 => sscanf toks s2
    | none => []
  | ScanTok.ws :: toks, s =>
    match s with
    | [] => sscanf toks []
    | c :: _ => if c = ' ' ∨ c = '\t' then sscanf toks (dropSpaces s) else []
  | ScanTok.num :: toks, s =>
    match scanInt s with
    | some (v, s2) => v :: sscanf toks s2
    | none => []

/-- Shared leading tokens "@@ -%d" of all four hunk header formats. -/
def hunkFmtPre : List ScanTok :=
  [.lit "@@", .ws, .lit "-", .num]

/-- Format "@@ -%d,%d +%d,%d @@". -/
def hunkFmtFull : List ScanTok :=
  hunkFmtPre ++ [.lit ",", .num, .ws, .lit "+", .num, .lit ",", .num, .ws, .lit "@@"]

/-- Format "@@ -%d +%d @@". -/
def hunkFmtShort : List ScanTok :=
  hunkFmtPre ++ [.ws, .lit "+", .num, .ws, .lit "@@"]

/-- Format "@@ -%d,%d +%d @@". -/
def hunkFmtOldCount : List ScanTok :=
  hunkFmtPre ++ [.lit ",", .num, .ws, .lit "+", .num, .ws, .lit "@@"]

/-- Format "@@ -%d +%d,%d @@". -/
def hunkFmtNewCount : List ScanTok :=
  hunkFmtPre ++ [.ws, .lit "+", .num, .lit ",", .num, .ws, .lit "@@"]

/-- parseHunkHeader from renderer.go: try the four Sscanf formats in
order, moving on only while both start values are still zero; variables
not reached by a scan keep their previous value (zero). -/
def parseHunkHeader (line : String) : Int × Int :=
  let vals1 := sscanf hunkFmtFull line.data
  let old1 := vals1.getD 0 0
  let new1 := vals1.getD 2 0
  if old1 = 0 ∧ new1 = 0 then
    let vals2 := sscanf hunkFmtShort line.data
    let old2 := vals2.getD 0 0
    let new2 := vals2.getD 1 0
    if old2 = 0 ∧ new2 = 0 then
      let vals3 := sscanf hunkFmtOldCount line.data
      let old3 := vals3.getD 0 0
      let new3 := vals3.getD 2 0
      if old3 = 0 ∧ new3 = 0 then
        let vals4 := sscanf hunkFmtNewCount line.data
        (vals4.getD 0 0, vals4.getD 1 0)
      else (old3, new3)
    else (old2, new2)
  else (old1, new1)

/-- Model of strings.HasPrefix on the character level (for the ASCII
prefixes the source tests, byte prefixes and character prefixes agree). -/
def strHasPrefix (s pre : String) : Bool :=
  pre.data.isPrefixOf s.data

/-- Model of the Go slice expression line[1:] for a line whose first
character is one byte wide, as is the case at every use site (the line
starts with a minus, plus or space). -/
def strDrop1 (s : String) : String :=
  String.mk (s.data.drop 1)

/-- Model of strings.Split(raw, newline) on the character level. -/
def splitOnNewline : List Char → List (List Char)
  | [] => [[]]
  | '\n' :: rest => [] :: splitOnNewline rest
  | c :: rest =>
    match splitOnNewline rest with
    | [] => [[c]]
    | l :: ls => (c :: l) :: ls

/-- The body of the parseDiffLines loop, carrying the old/new line
counters through the remaining raw lines. -/
def parseDiffLinesAux : Int → Int → List String → List DiffLine
  | _, _, [] => []
  | oldLine, newLine, line :: rest =>
    if strHasPrefix line "diff --git" ∨ strHasPrefix line "index " ∨
       strHasPrefix line "---" ∨ strHasPrefix line "+++" ∨
       strHasPrefix line "new file" ∨ strHasPrefix line "deleted file" then
      parseDiffLinesAux oldLine newLine rest
    else if strHasPrefix line "@@" then
      let hdr := parseHunkHeader line
      ⟨'@', line, 0, 0⟩ :: parseDiffLinesAux hdr.1 hdr.2 rest
    else if strHasPrefix line "-" then
      ⟨'-', strDrop1 line, oldLine, 0⟩ :: parseDiffLinesAux (oldLine + 1) newLine rest
    else if strHasPrefix line "+" then
      ⟨'+', strDrop1 line, 0, newLine⟩ :: parseDiffLinesAux oldLine (newLine + 1) rest
    else if strHasPrefix line "\\" then
      ⟨'\\', line, 0, 0⟩ :: parseDiffLinesAux oldLine newLine rest
    else
      ⟨' ', (if strHasPrefix line " " then strDrop1 line else line), oldLine, newLine⟩ ::
        parseDiffLinesAux (oldLine + 1) (newLine + 1) rest

/-- parseDiffLines from renderer.go: split raw text on newlines and fold
the classifying loop over the lines with both counters starting at 0. -/
def parseDiffLines (raw : String) : List DiffLine :=
  parseDiffLinesAux 0 0 ((splitOnNewline raw.data).map String.mk)

/-- The zero byte used for an unpopulated side of a side-by-side row (the
Go zero value of the kind byte). -/
def blankKind : Char := Char.ofNat 0

/-- One rendered row of the side-by-side view, mirroring sideBySidePair. -/
structure SideBySidePair where
  leftNum : Int
  leftText : String
  leftKind : Char
  rightNum : Int
  rightText : String
  rightKind : Char
deriving DecidableEq, Repr, Inhabited

/-- The inner zip loop of buildSideBySidePairs: row j takes its left side
from the j-th remove (when present) and its right side from the j-th add
(when present); an absent side keeps the zero values. -/
def zipRows (removes adds : List DiffLine) : List SideBySidePair :=
  let maxLen := if adds.length > removes.length then adds.length else removes.length
  (List.range maxLen).map fun j =>
    { leftNum := if j < removes.length then (removes.getD j default).oldNum else 0
      leftText := if j < removes.length then (removes.getD j default).content else ""
      leftKind := if j < removes.length then '-' else blankKind
      rightNum := if j < adds.length then (adds.getD j default).newNum else 0
      rightText := if j < adds.length then (adds.getD j default).content else ""
      rightKind := if j < adds.length then '+' else blankKind }

/-- buildSideBySidePairs from renderer.go.  A hunk header or context line
yields one row; a run of consecutive removes followed by a run of
consecutive adds is zipped; an orphan add renders right-only; a
no-newline marker shows on both sides. -/
def buildSideBySidePairs : List DiffLine → List SideBySidePair
  | [] => []
  | dl :: rest =>
    if dl.kind = '@' then
      ⟨0, dl.content, '@', 0, dl.content, '@'⟩ :: buildSideBySidePairs rest
    else if dl.kind = ' ' then
      ⟨dl.oldNum, dl.content, ' ', dl.newNum, dl.content, ' '⟩ :: buildSideBySidePairs rest
    else if dl.kind = '-' then
      let removes := dl :: rest.takeWhile (fun l => l.kind = '-')
      let afterRemoves := rest.dropWhile (fun l => l.kind = '-')
      let adds := afterRemoves.takeWhile (fun l => l.kind = '+')
      let afterAdds := afterRemoves.dropWhile (fun l => l.kind = '+')
      zipRows removes adds ++ buildSideBySidePairs afterAdds
    else if dl.kind = '+' then
      ⟨0, "", blankKind, dl.newNum, dl.content, '+'⟩ :: buildSideBySidePairs rest
    else if dl.kind = '\\' then
      ⟨0, dl.content, '\\', 0, dl.content, '\\'⟩ :: buildSideBySidePairs rest
    else
      buildSideBySidePairs rest
termination_by dlines => dlines.length
decreasing_by
  · simp
  · simp
  · simp only [List.length_cons]
    exact Nat.lt_succ_of_le ((List.dropWhile_sublist _).length_le.trans
      (List.dropWhile_sublist _).length_le)
  · simp
  · simp
  · simp

/-- truncate from renderer.go: cut a string to a rune budget, returning it
unchanged for a non-positive budget. -/
def truncate (s : String) (maxWidth : Int) : String :=
  if maxWidth ≤ 0 then s
  else if (s.data.length : Int) > maxWidth then String.mk (s.data.take maxWidth.toNat) else s

/-- One output row of FormatDiffLines.  The color styling and fixed-width
cell padding produced through the styling library are presentation and
are not modelled; the data the source places in the row (line numbers,
truncated texts, the separator) is kept. -/
def renderSideBySideRow (p : SideBySidePair) (maxWidth contentWidth : Int) : String :=
  if p.leftKind = '@' then truncate p.leftText maxWidth
  else if p.leftKind = '\\' ∨ p.rightKind = '\\' then truncate p.leftText maxWidth
  else
    let leftNum := if p.leftKind = '-' ∨ p.leftKind = ' ' then toString p.leftNum else ""
    let leftContent :=
      if p.leftKind = '-' ∨ p.leftKind = ' ' then truncate p.leftText contentWidth else ""
    let rightNum := if p.rightKind = '+' ∨ p.rightKind = ' ' then toString p.rightNum else ""
    let rightContent :=
      if p.rightKind = '+' ∨ p.rightKind = ' ' then truncate p.rightText contentWidth else ""
    leftNum ++ leftContent ++ "│" ++ rightNum ++ rightContent

/-- FormatDiffLines from renderer.go: empty input renders nothing;
otherwise parse, pair, render each pair to one row, and cap the output at
300 rows plus a single summary row reporting the remaining count. -/
def FormatDiffLines (diff : String) (maxWidth : Int) : List String :=
  if diff = "" then []
  else
    let parsed := parseDiffLines diff
    let pairs := buildSideBySidePairs parsed
    let halfWidth := max ((maxWidth - 1) / 2) 10
    let contentWidth := max (halfWidth - 5) 4
    let result := pairs.map (fun p => renderSideBySideRow p maxWidth contentWidth)
    if result.length > 300 then
      result.take 300 ++
        ["  ... " ++ toString (pairs.length - 300) ++ " more lines (truncated)"]
    else result

/-! ## Commit graph data model (renderer.go InitGraph and computeLayout) -/

/-- A ref decoration on a commit (refType 0 = branch, 1 = tag, mirroring
the Go RefType constants). -/
structure GitRef where
  name : String
  refType : Nat
  isHead : Bool
  isRemote : Bool
deriving DecidableEq, Repr, Inhabited

/-- Sentinel hash of the synthetic uncommitted-changes entry. -/
def UncommittedHash : String := "0000000000000000000000000000000000000000"

/-- A commit as consumed by the graph component.  Fields the embedded
functions never read (author, email, dates, message texts, short hash)
are omitted. -/
structure Commit where
  hash : String
  parents : List String
  refs : List GitRef
deriving DecidableEq, Repr, Inhabited

/-- A graph vertex: resolved parent and child indices plus the assigned
lane (x) and color index, both -1 until assigned.  The id and hash fields
of the Go struct are the position and the commit hash and are not read by
the layout pass. -/
structure GVertex where
  parents : List Nat
  children : List Nat
  x : Int
  color : Int
deriving DecidableEq, Repr, Inhabited

/-- The all-empty vertex InitGraph starts from. -/
def emptyVertex : GVertex := ⟨[], [], -1, -1⟩

/-- The hash-to-position index built by InitGraph.  A later Go map write
wins over an earlier one for the same hash, hence the search from the
right. -/
def commitIndex (commits : List Commit) (h : String) : Option Nat :=
  match commits.reverse.findIdx? (fun c => c.hash = h) with
  | some j => some (commits.length - 1 - j)
  | none => none

/-- The InitGraph edge-resolution pass: for each commit in order, each
parent hash found in the index adds a parent edge on the commit and a
child edge on the parent; unresolved parent hashes are skipped. -/
def buildVertices (commits : List Commit) : List GVertex :=
  (List.range commits.length).foldl (fun verts i =>
    ((commits.getD i default).parents).foldl (fun verts parentHash =>
      match commitIndex commits parentHash with
      | some parentIdx =>
        let verts2 := verts.set i { verts.getD i emptyVertex with
          parents := (verts.getD i emptyVertex).parents ++ [parentIdx] }
        verts2.set parentIdx { verts2.getD parentIdx emptyVertex with
          children := (verts2.getD parentIdx emptyVertex).children ++ [i] }
      | none => verts) verts)
    (commits.map (fun _ => emptyVertex))

/-- A lane table snapshot (LaneState in the source): the occupant vertex
index per lane (-1 empty), the color per lane (-1 none), and the table
width. -/
structure LaneState where
  lanes : List Int
  laneColors : List Int
  maxLanes : Nat
deriving DecidableEq, Repr, Inhabited

/-- The mutable state threaded through the computeLayout loop. -/
structure LayoutState where
  verts : List GVertex
  lanes : List Int
  laneColors : List Int
  nextColor : Nat
  laneSnapshots : List LaneState
  postLaneSnapshots : List LaneState
  maxLanes : Nat
deriving DecidableEq, Repr, Inhabited

/-- findAvailableLane from renderer.go: the lowest empty lane, or the
table length when none is free. -/
def findAvailableLane (lanes : List Int) : Nat :=
  match lanes.findIdx? (fun occupant => occupant = -1) with
  | some i => i
  | none => lanes.length

/-- trimEmptyTrailingLanesWithColors from renderer.go: find the highest
occupied lane scanning from the right and cut both tables one past it;
fully empty tables trim to nothing. -/
def trimEmptyTrailingLanesWithColors (lanes laneColors : List Int) :
    List Int × List Int :=
  match lanes.reverse.findIdx? (fun o => o ≠ -1) with
  | none => ([], [])
  | some j =>
    let lastActive := lanes.length - 1 - j
    (lanes.take (lastActive + 1), laneColors.take (lastActive + 1))

/-- The isMergeTarget set precomputed at the top of computeLayout: the
vertices that occur as a secondary parent of some merge commit. -/
def isMergeTarget (verts : List GVertex) (j : Nat) : Bool :=
  verts.any (fun v => (v.parents.drop 1).contains j)

/-- Extension of a lane table with empty slots up to the given length,
modelling the growth loops in computeLayout. -/
def growTo (lanes : List Int) (n : Nat) : List Int :=
  lanes ++ List.replicate (n - lanes.length) (-1)

/-- Step 1 of computeLayout: try to inherit the lane of a placed child
whose first parent is vertex i and that is not itself a merge target; the
leftmost such child wins (strict improvement only, first of a tie wins).
Returns the pair (lane, color), both -1 when no child donates. -/
def inheritLane (verts : List GVertex) (mt : Nat → Bool) (i : Nat)
    (children : List Nat) : Int × Int :=
  children.foldl (fun acc childIdx =>
    let child := verts.getD childIdx emptyVertex
    if child.x ≥ 0 ∧ child.parents.head? = some i ∧ ¬ mt childIdx = true then
      (if acc.1 = -1 ∨ child.x < acc.1 then (child.x, child.color) else acc)
    else acc) (-1, -1)

/-- Step 2 of computeLayout: reuse the first lane already reserved for
vertex i, unless that reservation came from a merge-target child, in
which case nothing is taken (the Go loop breaks after the first match
either way). -/
def reuseReservation (verts : List GVertex) (mt : Nat → Bool) (i : Nat)
    (children : List Nat) (lanes laneColors : List Int) : Int × Int :=
  match lanes.findIdx? (fun occupant => occupant = (i : Int)) with
  | some laneIdx =>
    let reservedByMergeTarget := children.any (fun childIdx =>
      let child := verts.getD childIdx emptyVertex
      decide (child.x = (laneIdx : Int) ∧ child.parents.head? = some i) && mt childIdx)
    if reservedByMergeTarget then (-1, -1)
    else ((laneIdx : Int), laneColors.getD laneIdx (-1))
  | none => (-1, -1)

/-- Step 4 of computeLayout: clear every lane other than the assigned one
that is still reserved for vertex i (duplicate reservations). -/
def clearOtherLanes (i assignedLane : Nat) (lanes laneColors : List Int) :
    List Int × List Int :=
  let cleared := (lanes.zip laneColors).enum.map (fun p =>
    if p.2.1 = (i : Int) ∧ p.1 ≠ assignedLane then ((-1 : Int), (-1 : Int)) else p.2)
  (cleared.map Prod.fst, cleared.map Prod.snd)

/-- Step 5 of computeLayout: free the lane of every child whose first
parent is vertex i but who lives in a different lane than the one
assigned to i, provided that lane still carries i. -/
def freeConvergence (verts : List GVertex) (i assignedLane : Nat)
    (children : List Nat) (lanes laneColors : List Int) : List Int × List Int :=
  children.foldl (fun (tbl : List Int × List Int) childIdx =>
    let child := verts.getD childIdx emptyVertex
    if child.parents.head? = some i ∧ child.x ≠ (assignedLane : Int) ∧
       0 ≤ child.x ∧ child.x < (tbl.1.length : Int) ∧
       tbl.1.getD child.x.toNat 0 = (i : Int) then
      (tbl.1.set child.x.toNat (-1), tbl.2.set child.x.toNat (-1))
    else tbl) (lanes, laneColors)

/-- Step 7 of computeLayout: reserve the lowest free lane with a
brand-new rotating color for every secondary parent not already occupying
a lane. -/
def reserveMerges (secondaries : List Nat) (lanes laneColors : List Int)
    (nextColor : Nat) : List Int × List Int × Nat :=
  secondaries.foldl (fun (acc : List Int × List Int × Nat) parentIdx =>
    if acc.1.contains (parentIdx : Int) then acc
    else
      let parentLane := findAvailableLane acc.1
      let grownLanes := growTo acc.1 (parentLane + 1)
      let grownColors := growTo acc.2.1 (parentLane + 1)
      (grownLanes.set parentLane (parentIdx : Int),
       grownColors.set parentLane (acc.2.2 : Int),
       (acc.2.2 + 1) % 5))
    (lanes, laneColors, nextColor)

/-- One iteration of the computeLayout loop for vertex i, composing the
numbered steps of the source: inherit or reuse a lane (else lowest free),
inherit the color or draw a fresh one from the rotating palette of five,
clear duplicate reservations, capture the pre-snapshot, free convergence
lanes, hand the lane to the first parent (or free it for a root), reserve
lanes for unplaced secondary parents, trim trailing empties, and capture
the post-snapshot. -/
def layoutStep (mt : Nat → Bool) (st : LayoutState) (i : Nat) : LayoutState :=
  let v := st.verts.getD i emptyVertex
  let step1 := inheritLane st.verts mt i v.children
  let step2 :=
    if step1.1 = -1 then reuseReservation st.verts mt i v.children st.lanes st.laneColors
    else step1
  let assignedLane : Nat :=
    if step2.1 ≥ 0 then step2.1.toNat else findAvailableLane st.lanes
  let inheritedColor : Int := step2.2
  let lanes0 := growTo st.lanes (assignedLane + 1)
  let laneColors0 := growTo st.laneColors (assignedLane + 1)
  let vcolor : Int := if inheritedColor ≥ 0 then inheritedColor else (st.nextColor : Int)
  let nextColor1 := if inheritedColor ≥ 0 then st.nextColor else (st.nextColor + 1) % 5
  let verts := st.verts.set i { v with x := (assignedLane : Int), color := vcolor }
  let lanes1 := lanes0.set assignedLane (i : Int)
  let laneColors1 := laneColors0.set assignedLane vcolor
  let tbl2 := clearOtherLanes i assignedLane lanes1 laneColors1
  let laneSnapshots := st.laneSnapshots ++ [⟨tbl2.1, tbl2.2, tbl2.1.length⟩]
  let tbl := freeConvergence verts i assignedLane v.children tbl2.1 tbl2.2
  let handed : List Int × List Int :=
    match v.parents.head? with
    | some firstParent =>
      (tbl.1.set assignedLane (firstParent : Int), tbl.2.set assignedLane vcolor)
    | none => (tbl.1.set assignedLane (-1), tbl.2.set assignedLane (-1))
  let res := reserveMerges (v.parents.drop 1) handed.1 handed.2 nextColor1
  let trimmed := trimEmptyTrailingLanesWithColors res.1 res.2.1
  let postLaneSnapshots := st.postLaneSnapshots ++ [⟨trimmed.1, trimmed.2, trimmed.1.length⟩]
  let maxLanes := if trimmed.1.length > st.maxLanes then trimmed.1.length else st.maxLanes
  { verts := verts, lanes := trimmed.1, laneColors := trimmed.2, nextColor := res.2.2,
    laneSnapshots := laneSnapshots, postLaneSnapshots := postLaneSnapshots,
    maxLanes := maxLanes }

/-- computeLayout from renderer.go: one pass over the vertices in list
order, threading the lane table. -/
def computeLayout (verts0 : List GVertex) : LayoutState :=
  (List.range verts0.length).foldl (layoutStep (isMergeTarget verts0))
    ⟨verts0, [], [], 0, [], [], 0⟩

/-- InitGraph from renderer.go restricted to its layout content: resolve
edges, then run the layout pass. -/
def InitGraph (commits : List Commit) : LayoutState :=
  computeLayout (buildVertices commits)

/-- Proof scaffolding: the chain vertex shape after the layout pass has
processed the first k rows (parents point to the next position, children
to the previous one): every processed vertex sits in lane 0 with color 0,
the rest are unassigned. -/
def placedChainVert (n k j : Nat) : GVertex :=
  ⟨if j + 1 < n then [j + 1] else [], if j = 0 then [] else [j - 1],
   if j < k then 0 else -1, if j < k then 0 else -1⟩

/-! ## Navigation model (graph.go) -/

/-- A changed file entry as consumed by the navigation model. -/
structure ChangedFile where
  status : String
  path : String
  additions : Int
  deletions : Int
deriving DecidableEq, Repr, Inhabited

/-- ExpandState from graph.go: the inline-expand state of one commit. -/
structure ExpandState where
  files : List ChangedFile
  fileIndex : Int
  expandedFile : String
  diffLines : List String
deriving DecidableEq, Repr, Inhabited

/-- The navigation Model of graph.go.  The renderer is represented by the
layout state it computes (the only renderer datum the navigation logic
reads is the lane count); the theme is presentation and is not modelled. -/
structure NavModel where
  commits : List Commit
  graph : LayoutState
  width : Int
  height : Int
  cursor : Int
  scrollOffset : Int
  expandedIdx : Int
  expandState : Option ExpandState
  lastCursor : Int
deriving DecidableEq, Repr, Inhabited

/-- Commands the navigation model hands back to the shell: the
selection-changed event or one of the asynchronous load requests. -/
inductive NavCmd where
  | selectionChanged (c : Commit)
  | loadFiles (hash : String)
  | loadWorkingTreeFiles
  | loadFileDiff (hash : String) (path : String)
  | loadWorkingTreeFileDiff (path : String)
deriving DecidableEq, Repr

/-- Input events consumed by Update. -/
inductive MouseEvent where
  | wheelUp
  | wheelDown
  | clickLeftRelease (y : Int)
  | other
deriving DecidableEq, Repr

/-- Messages consumed by Update. -/
inductive NavMsg where
  | key (s : String)
  | mouse (ev : MouseEvent)
  | filesLoaded (hash : String) (files : List ChangedFile)
  | fileDiffLoaded (hash : String) (filePath : String) (diff : String)
deriving DecidableEq, Repr

/-- MaxLanes of the renderer: lane count (at least one) times one glyph
plus one padding character (LaneSpacing = 1). -/
def RendererMaxLanes (g : LayoutState) : Int :=
  if g.maxLanes = 0 then 1 + 1 else (g.maxLanes : Int) * (1 + 1)

/-- isExpanded from graph.go. -/
def isExpanded (m : NavModel) : Bool :=
  m.expandedIdx ≥ 0 && m.expandState.isSome

/-- collapseExpanded from graph.go. -/
def collapseExpanded (m : NavModel) : NavModel :=
  { m with expandedIdx := -1, expandState := none }

/-- metadataLineCount from graph.go: 2 lines for the synthetic
uncommitted entry, else 3 plus one for a refs line. -/
def metadataLineCount (m : NavModel) : Int :=
  match m.expandState with
  | none => 0
  | some _ =>
    if m.expandedIdx < 0 ∨ (m.commits.length : Int) ≤ m.expandedIdx then 0
    else
      let commit := m.commits.getD m.expandedIdx.toNat default
      if commit.hash = UncommittedHash then 2
      else 3 + (if commit.refs ≠ [] then 1 else 0)

/-- expandedLineCount from graph.go: metadata lines plus one line per
file plus the cached diff lines under the expanded file. -/
def expandedLineCount (m : NavModel) : Int :=
  match m.expandState with
  | none => 0
  | some es =>
    metadataLineCount m + es.files.foldl (fun acc f =>
      acc + 1 + (if f.path = es.expandedFile ∧ 0 < es.diffLines.length
        then (es.diffLines.length : Int) else 0)) 0

/-- totalVisualLines from graph.go. -/
def totalVisualLines (m : NavModel) : Int :=
  (m.commits.length : Int) + (if isExpanded m then expandedLineCount m else 0)

/-- clampScroll from graph.go. -/
def clampScroll (m : NavModel) : NavModel :=
  let maxScroll0 := totalVisualLines m - m.height
  let maxScroll := if maxScroll0 < 0 then 0 else maxScroll0
  let s1 := if m.scrollOffset > maxScroll then maxScroll else m.scrollOffset
  let s2 := if s1 < 0 then 0 else s1
  { m with scrollOffset := s2 }

/-- The loop of cursorVisualLine, written with an explicit fuel argument
equal to the number of commits so the recursion is structural; the fuel
never runs out before the index check does.  The file walk reads only the
entries below the file cursor (the source indexes the same entries). -/
def cursorVisualLineLoop (m : NavModel) : Nat → Nat → Int → Int
  | 0, _, visLine => visLine
  | rem + 1, i, visLine =>
    if i < m.commits.length then
      if (i : Int) = m.cursor then
        (match m.expandState with
         | some es =>
           if m.expandedIdx ≥ 0 ∧ m.expandedIdx = m.cursor ∧ es.fileIndex ≥ 0 then
             (es.files.take es.fileIndex.toNat).foldl (fun acc f =>
               acc + 1 + (if f.path = es.expandedFile ∧ 0 < es.diffLines.length
                 then (es.diffLines.length : Int) else 0))
               (visLine + 1 + metadataLineCount m)
           else visLine
         | none => visLine)
      else
        cursorVisualLineLoop m rem (i + 1)
          (if (i : Int) = m.expandedIdx ∧ m.expandState.isSome then
            visLine + 1 + expandedLineCount m else visLine + 1)
    else visLine

/-- cursorVisualLine from graph.go. -/
def cursorVisualLine (m : NavModel) : Int :=
  cursorVisualLineLoop m m.commits.length 0 0

/-- ensureCursorVisible from graph.go. -/
def ensureCursorVisible (m : NavModel) : NavModel :=
  let cvl := cursorVisualLine m
  let s1 := if cvl < m.scrollOffset then cvl else m.scrollOffset
  let s2 := if cvl ≥ s1 + m.height then cvl - m.height + 1 else s1
  clampScroll { m with scrollOffset := s2 }

/-- ensureExpandedVisible from graph.go: forward-only scrolling. -/
def ensureExpandedVisible (m : NavModel) : NavModel :=
  let cvl := cursorVisualLine m
  let s2 := if cvl ≥ m.scrollOffset + m.height then cvl - m.height + 1
    else m.scrollOffset
  clampScroll { m with scrollOffset := s2 }

/-- expandedFileDiffEndVisLine from graph.go. -/
def expandedFileDiffEndVisLine (m : NavModel) : Int :=
  match m.expandState with
  | none => 0
  | some es =>
    if m.expandedIdx ≥ 0 ∧ es.expandedFile ≠ "" ∧ 0 < es.diffLines.length then
      cursorVisualLine m + es.diffLines.length
    else 0

/-- SelectedCommit from graph.go. -/
def SelectedCommit (m : NavModel) : Option Commit :=
  if 0 ≤ m.cursor ∧ m.cursor < (m.commits.length : Int) then
    some (m.commits.getD m.cursor.toNat default)
  else none

/-- emitSelectionChanged from graph.go: emit only when the cursor moved
since the last emission, recording the new position. -/
def emitSelectionChanged (m : NavModel) : NavModel × Option NavCmd :=
  if m.cursor = m.lastCursor then (m, none)
  else
    let m2 := { m with lastCursor := m.cursor }
    match SelectedCommit m2 with
    | none => (m2, none)
    | some c => (m2, some (NavCmd.selectionChanged c))

/-- The shared tail of moveCursorDown: advance to the next commit when
one exists, make it visible, and emit. -/
def moveDownBottom (m : NavModel) : NavModel × Option NavCmd :=
  if m.cursor < (m.commits.length : Int) - 1 then
    emitSelectionChanged (ensureCursorVisible { m with cursor := m.cursor + 1 })
  else (m, none)

/-- The shared tail of moveCursorUp. -/
def moveUpBottom (m : NavModel) : NavModel × Option NavCmd :=
  if m.cursor > 0 then
    emitSelectionChanged (ensureCursorVisible { m with cursor := m.cursor - 1 })
  else (m, none)

/-- moveCursorDown from graph.go: scroll through an open diff, else walk
the file list, else collapse and advance to the next commit. -/
def moveCursorDown (m : NavModel) : NavModel × Option NavCmd :=
  if isExpanded m then
    match m.expandState with
    | some es =>
      if es.expandedFile ≠ "" ∧ 0 < es.diffLines.length then
        if expandedFileDiffEndVisLine m ≥ m.scrollOffset + m.height then
          (clampScroll { m with scrollOffset := m.scrollOffset + 1 }, none)
        else
          if es.fileIndex < (es.files.length : Int) - 1 then
            let es2 := { es with expandedFile := "", diffLines := ([] : List String), fileIndex := es.fileIndex + 1 }
            (ensureCursorVisible { m with expandState := some es2 }, none)
          else
            moveDownBottom (collapseExpanded m)
      else
        if es.fileIndex < (es.files.length : Int) - 1 then
          let es2 := { es with fileIndex := es.fileIndex + 1 }
          (ensureCursorVisible { m with expandState := some es2 }, none)
        else moveDownBottom (collapseExpanded m)
    | none => moveDownBottom m
  else moveDownBottom m

/-- moveCursorUp from graph.go: scroll up through an open diff or close
it, else walk the file list up, else collapse staying on the commit. -/
def moveCursorUp (m : NavModel) : NavModel × Option NavCmd :=
  if isExpanded m then
    match m.expandState with
    | some es =>
      if es.expandedFile ≠ "" ∧ 0 < es.diffLines.length then
        if cursorVisualLine m < m.scrollOffset then
          ({ m with scrollOffset :=
            if m.scrollOffset - 1 < 0 then 0 else m.scrollOffset - 1 }, none)
        else
          let es2 := { es with expandedFile := "", diffLines := ([] : List String) }
          (ensureCursorVisible { m with expandState := some es2 }, none)
      else if es.fileIndex > -1 then
        let es2 := { es with fileIndex := es.fileIndex - 1 }
        (ensureCursorVisible { m with expandState := some es2 }, none)
      else
        (ensureCursorVisible (collapseExpanded m), none)
    | none => moveUpBottom m
  else moveUpBottom m

/-- goToTop from graph.go. -/
def goToTop (m : NavModel) : NavModel × Option NavCmd :=
  emitSelectionChanged { (collapseExpanded m) with cursor := 0, scrollOffset := 0 }

/-- goToBottom from graph.go. -/
def goToBottom (m : NavModel) : NavModel × Option NavCmd :=
  let m1 := collapseExpanded m
  let m2 := if 0 < m1.commits.length then
    { m1 with cursor := (m1.commits.length : Int) - 1 } else m1
  emitSelectionChanged (ensureCursorVisible m2)

/-- pageDown from graph.go. -/
def pageDown (m : NavModel) : NavModel × Option NavCmd :=
  let m1 := collapseExpanded m
  let c1 := m1.cursor + m1.height / 2
  let c2 := if c1 ≥ (m1.commits.length : Int) then (m1.commits.length : Int) - 1 else c1
  let c3 := if c2 < 0 then 0 else c2
  emitSelectionChanged (ensureCursorVisible { m1 with cursor := c3 })

/-- pageUp from graph.go. -/
def pageUp (m : NavModel) : NavModel × Option NavCmd :=
  let m1 := collapseExpanded m
  let c1 := m1.cursor - m1.height / 2
  let c2 := if c1 < 0 then 0 else c1
  emitSelectionChanged (ensureCursorVisible { m1 with cursor := c2 })

/-- handleKey from graph.go. -/
def handleKey (m : NavModel) (key : String) : NavModel × Option NavCmd :=
  if key = "j" ∨ key = "down" then moveCursorDown m
  else if key = "k" ∨ key = "up" then moveCursorUp m
  else if key = "g" ∨ key = "home" then goToTop m
  else if key = "G" ∨ key = "end" then goToBottom m
  else if key = "ctrl+d" then pageDown m
  else if key = "ctrl+u" then pageUp m
  else (m, none)

/-- Wheel-up branch of handleMouse: scroll back by three lines, collapse,
and pull the cursor into the viewport. -/
def handleMouseWheelUp (m : NavModel) : NavModel × Option NavCmd :=
  let m1 := collapseExpanded m
  let s := if m1.scrollOffset - 3 < 0 then 0 else m1.scrollOffset - 3
  let m2 := { m1 with scrollOffset := s }
  let c1 := if m2.cursor > m2.scrollOffset + m2.height - 1 then
    m2.scrollOffset + m2.height - 1 else m2.cursor
  let c2 := if c1 ≥ (m2.commits.length : Int) then (m2.commits.length : Int) - 1 else c1
  let c3 := if c2 < m2.scrollOffset then m2.scrollOffset else c2
  emitSelectionChanged { m2 with cursor := c3 }

/-- Wheel-down branch of handleMouse. -/
def handleMouseWheelDown (m : NavModel) : NavModel × Option NavCmd :=
  let m1 := collapseExpanded m
  let m2 := clampScroll { m1 with scrollOffset := m1.scrollOffset + 3 }
  let c1 := if m2.cursor < m2.scrollOffset then m2.scrollOffset else m2.cursor
  let c2 := if c1 ≥ (m2.commits.length : Int) then (m2.commits.length : Int) - 1 else c1
  let c3 := if c2 > m2.scrollOffset + m2.height - 1 then
    m2.scrollOffset + m2.height - 1 else c2
  emitSelectionChanged { m2 with cursor := c3 }

/-- Move the file cursor of the expanded commit. -/
def setFileIndex (m : NavModel) (v : Int) : NavModel :=
  { m with expandState := m.expandState.map (fun es => { es with fileIndex := v }) }

/-- The file-locating inner loop of handleClick, fueled structurally by
the number of files. -/
def clickFileLoop (es : ExpandState) (fileClickLine : Int) :
    Nat → Nat → Int → Option Int
  | 0, _, _ => none
  | rem + 1, fi, fileLine =>
    if fi < es.files.length then
      if fileLine = fileClickLine then some (fi : Int)
      else
        clickFileLoop es fileClickLine rem (fi + 1)
          (if (es.files.getD fi default).path = es.expandedFile ∧
              0 < es.diffLines.length
           then fileLine + 1 + (es.diffLines.length : Int) else fileLine + 1)
    else none

/-- The commit-row walk of handleClick, fueled structurally by the number
of commits: locate the clicked visual line among commit rows and the
expanded region. -/
def clickLoop (m : NavModel) (targetVisLine : Int) :
    Nat → Nat → Int → NavModel × Option NavCmd
  | 0, _, _ => (m, none)
  | rem + 1, i, visLine =>
    if i < m.commits.length then
      if visLine = targetVisLine then
        if m.cursor ≠ (i : Int) then
          emitSelectionChanged { (collapseExpanded m) with cursor := (i : Int) }
        else (m, none)
      else
        if (i : Int) = m.expandedIdx ∧ m.expandState.isSome then
          if targetVisLine > visLine + 1 - 1 ∧
              targetVisLine < visLine + 1 + expandedLineCount m then
            if targetVisLine - (visLine + 1) < metadataLineCount m then
              (setFileIndex m (-1), none)
            else
              (match m.expandState with
               | some es =>
                 (match clickFileLoop es
                     (targetVisLine - (visLine + 1) - metadataLineCount m)
                     es.files.length 0 0 with
                  | some fi => (setFileIndex m fi, none)
                  | none => (m, none))
               | none => (m, none))
          else
            clickLoop m targetVisLine rem (i + 1) (visLine + 1 + expandedLineCount m)
        else
          clickLoop m targetVisLine rem (i + 1) (visLine + 1)
    else (m, none)

/-- handleClick from graph.go. -/
def handleClick (m : NavModel) (y : Int) : NavModel × Option NavCmd :=
  clickLoop m (m.scrollOffset + y) m.commits.length 0 0

/-- handleMouse from graph.go. -/
def handleMouse (m : NavModel) (ev : MouseEvent) : NavModel × Option NavCmd :=
  match ev with
  | MouseEvent.wheelUp => handleMouseWheelUp m
  | MouseEvent.wheelDown => handleMouseWheelDown m
  | MouseEvent.clickLeftRelease y => handleClick m y
  | MouseEvent.other => (m, none)

/-- handleFilesLoaded from graph.go: a stale hash is dropped; otherwise
the file list appears and the viewport only ever scrolls forward. -/
def handleFilesLoaded (m : NavModel) (hash : String) (files : List ChangedFile) :
    NavModel × Option NavCmd :=
  if m.expandedIdx < 0 ∨ (m.commits.length : Int) ≤ m.expandedIdx then (m, none)
  else if (m.commits.getD m.expandedIdx.toNat default).hash ≠ hash then (m, none)
  else
    match m.expandState with
    | none => (m, none)
    | some es =>
      let es2 := { es with files := files, fileIndex := if 0 < files.length then 0 else es.fileIndex }
      (ensureExpandedVisible { m with expandState := some es2 }, none)

/-- handleFileDiffLoaded from graph.go: a stale hash or path is dropped;
otherwise the rendered diff is cached and the scroll is only clamped. -/
def handleFileDiffLoaded (m : NavModel) (hash filePath diff : String) :
    NavModel × Option NavCmd :=
  match m.expandState with
  | none => (m, none)
  | some es =>
    if m.expandedIdx < 0 ∨ (m.commits.length : Int) ≤ m.expandedIdx then (m, none)
    else if (m.commits.getD m.expandedIdx.toNat default).hash ≠ hash ∨
        es.expandedFile ≠ filePath then (m, none)
    else
      let gutterWidth0 := RendererMaxLanes m.graph
      let gutterWidth := if gutterWidth0 < 1 then 1 else gutterWidth0
      let diffWidth0 := m.width - gutterWidth
      let diffWidth := if diffWidth0 < 20 then 20 else diffWidth0
      let es2 := { es with diffLines := FormatDiffLines diff diffWidth }
      (clampScroll { m with expandState := some es2 }, none)

/-- Update from graph.go. -/
def update (m : NavModel) (msg : NavMsg) : NavModel × Option NavCmd :=
  match msg with
  | NavMsg.key s => handleKey m s
  | NavMsg.mouse ev => handleMouse m ev
  | NavMsg.filesLoaded h fs => handleFilesLoaded m h fs
  | NavMsg.fileDiffLoaded h p d => handleFileDiffLoaded m h p d

/-- The expand-current tail of ToggleExpand. -/
def expandCurrent (m : NavModel) : NavModel × Option NavCmd :=
  let m2 := { m with expandedIdx := m.cursor, expandState := some ⟨[], -1, "", []⟩ }
  let hash := (m.commits.getD m.cursor.toNat default).hash
  if hash = UncommittedHash then (m2, some NavCmd.loadWorkingTreeFiles)
  else (m2, some (NavCmd.loadFiles hash))

/-- ToggleExpand from graph.go: toggle a file diff, collapse from the
metadata row, or (re)expand the commit under the cursor, requesting the
matching asynchronous load. -/
def ToggleExpand (m : NavModel) : NavModel × Option NavCmd :=
  if isExpanded m then
    match m.expandState with
    | some es =>
      if m.expandedIdx = m.cursor then
        if 0 ≤ es.fileIndex ∧ es.fileIndex < (es.files.length : Int) then
          let file := es.files.getD es.fileIndex.toNat default
          if es.expandedFile = file.path then
            let es2 := { es with expandedFile := "", diffLines := ([] : List String) }
            ({ m with expandState := some es2 }, none)
          else
            let es2 := { es with expandedFile := file.path, diffLines := ([] : List String) }
            let m2 := { m with expandState := some es2 }
            let hash := (m.commits.getD m.cursor.toNat default).hash
            if hash = UncommittedHash then
              (m2, some (NavCmd.loadWorkingTreeFileDiff file.path))
            else (m2, some (NavCmd.loadFileDiff hash file.path))
        else
          (collapseExpanded m, none)
      else expandCurrent (collapseExpanded m)
    | none => expandCurrent m
  else expandCurrent m

/-- SetCommits from graph.go: replace the commit list, rebuild the graph,
restore the cursor and expansion by hash, and keep the scroll offset
verbatim (clamped) exactly when both were preserved at their positions. -/
def SetCommits (m : NavModel) (commits : List Commit) : NavModel :=
  let prevHash := if 0 ≤ m.cursor ∧ m.cursor < (m.commits.length : Int) then
    (m.commits.getD m.cursor.toNat default).hash else ""
  let expandedHash := if 0 ≤ m.expandedIdx ∧ m.expandedIdx < (m.commits.length : Int) then
    (m.commits.getD m.expandedIdx.toNat default).hash else ""
  let prevScroll := m.scrollOffset
  let m1 := { m with commits := commits, graph := InitGraph commits }
  let newCursor : Int :=
    if prevHash ≠ "" then
      match commits.findIdx? (fun c => c.hash = prevHash) with
      | some i => (i : Int)
      | none => -1
    else -1
  let cp : Bool × Int :=
    if newCursor ≥ 0 then (decide (newCursor = m1.cursor), newCursor)
    else if m1.cursor ≥ (commits.length : Int) then
      let c := (commits.length : Int) - 1
      (false, if c < 0 then 0 else c)
    else (false, m1.cursor)
  let m2 := { m1 with cursor := cp.2, lastCursor := cp.2 }
  let ep : Bool × NavModel :=
    if expandedHash ≠ "" then
      match commits.findIdx? (fun c => c.hash = expandedHash) with
      | some j => (decide ((j : Int) = m2.expandedIdx), { m2 with expandedIdx := (j : Int) })
      | none => (false, { m2 with expandedIdx := -1, expandState := none })
    else (false, m2)
  if cp.1 && ep.1 then clampScroll { ep.2 with scrollOffset := prevScroll }
  else ensureCursorVisible ep.2

/-- A one-commit navigation model used as a concrete evaluation point. -/
def c2CommitA : Commit := ⟨"a", [], []⟩

/-- A commit with a different hash, for replacement lists. -/
def c2CommitB : Commit := ⟨"b", [], []⟩

/-- A concrete model: one commit, selected and expanded, scrolled to 5. -/
def c2ModelA : NavModel :=
  ⟨[c2CommitA], InitGraph [c2CommitA], 80, 1, 0, 5, 0, some ⟨[], -1, "", []⟩, 0⟩

/-- A concrete model with no expanded commit, scrolled to 5. -/
def c10Model : NavModel :=
  ⟨[c2CommitA], InitGraph [c2CommitA], 80, 3, 0, 5, -1, none, 0⟩

/-- A two-commit model with nothing expanded, cursor and scroll at 0. -/
def c5Model : NavModel :=
  ⟨[c2CommitA, c2CommitB], InitGraph [], 80, 10, 0, 0, -1, none, 0⟩

/-- The same two-commit model with the first commit expanded and no file
selected. -/
def c5ModelExp : NavModel :=
  ⟨[c2CommitA, c2CommitB], InitGraph [], 80, 10, 0, 0, 0, some ⟨[], -1, "", []⟩, 0⟩


/-! ## Helper lemmas -/

lemma clampScroll_cursor (m : NavModel) : (clampScroll m).cursor = m.cursor := rfl

lemma ensureCursorVisible_cursor (m : NavModel) :
    (ensureCursorVisible m).cursor = m.cursor := rfl

lemma ensureCursorVisible_expandedIdx (m : NavModel) :
    (ensureCursorVisible m).expandedIdx = m.expandedIdx := rfl

lemma ensureCursorVisible_expandState (m : NavModel) :
    (ensureCursorVisible m).expandState = m.expandState := rfl

lemma totalVisualLines_clampScroll (m : NavModel) :
    totalVisualLines (clampScroll m) = totalVisualLines m := rfl

lemma takeWhile_append_of_all {α : Type} (p : α → Bool) (l1 l2 : List α)
    (h : ∀ a ∈ l1, p a = true) :
    (l1 ++ l2).takeWhile p = l1 ++ l2.takeWhile p := by
  induction l1 with
  | nil => simp
  | cons a t ih =>
    simp [List.takeWhile_cons, h a (by simp), ih (fun b hb => h b (by simp [hb]))]

lemma dropWhile_append_of_all {α : Type} (p : α → Bool) (l1 l2 : List α)
    (h : ∀ a ∈ l1, p a = true) :
    (l1 ++ l2).dropWhile p = l2.dropWhile p := by
  induction l1 with
  | nil => simp
  | cons a t ih =>
    simp only [List.cons_append, List.dropWhile_cons, h a (by simp), if_true, ih
      (fun b hb => h b (by simp [hb]))]

lemma takeWhile_eq_nil_of_head {α : Type} (p : α → Bool) (l : List α)
    (h : ∀ a, l.head? = some a → p a = false) :
    l.takeWhile p = [] := by
  cases l with
  | nil => rfl
  | cons a t => simp [List.takeWhile_cons, h a rfl]

lemma dropWhile_eq_self_of_head {α : Type} (p : α → Bool) (l : List α)
    (h : ∀ a, l.head? = some a → p a = false) :
    l.dropWhile p = l := by
  cases l with
  | nil => rfl
  | cons a t => simp [List.dropWhile_cons, h a rfl]

lemma sscanf_hunkFmtPre_append (tail : List ScanTok) (s : List Char)
    (h : sscanf hunkFmtPre s = []) :
    sscanf (hunkFmtPre ++ tail) s = [] := by
  simp only [hunkFmtPre, List.cons_append, List.nil_append] at h ⊢
  cases hs : stripLit "@@".data s with
  | none => simp [sscanf, hs]
  | some s1 =>
    cases s1 with
    | nil => simp [sscanf, hs, stripLit]
    | cons c cs =>
      by_cases hc : c = ' ' ∨ c = '\t'
      · cases hs2 : stripLit "-".data (dropSpaces (c :: cs)) with
        | none => simp [sscanf, hs, hc, hs2]
        | some s2 =>
          cases hs3 : scanInt s2 with
          | none => simp [sscanf, hs, hc, hs2, hs3]
          | some vs => simp [sscanf, hs, hc, hs2, hs3] at h
      · simp [sscanf, hs, hc]

lemma getD_map_range {α : Type} (f : Nat → α) (n k : Nat) (hk : k < n) (d : α) :
    ((List.range n).map f).getD k d = f k := by
  rw [List.getD_eq_getElem _ _ (by simpa using hk)]
  simp

lemma set_map_range {α : Type} (f : Nat → α) (n k : Nat) (y : α) :
    ((List.range n).map f).set k y =
      (List.range n).map (fun j => if j = k then y else f j) := by
  apply List.ext_getElem (by simp)
  intro m h1 h2
  simp only [List.getElem_set, List.getElem_map, List.getElem_range]
  by_cases h : k = m
  · simp [h]
  · rw [if_neg h, if_neg (fun hc : m = k => h hc.symm)]

lemma findIdx?_map_nodup {α β : Type} [DecidableEq β] (f : α → β) :
    ∀ (l : List α) (i : Nat) (d : α) (s : Nat), (l.map f).Nodup → i < l.length →
      l.findIdx? (fun a => decide (f a = f (l.getD i d))) s = some (s + i) := by
  intro l
  induction l with
  | nil => intro i d s _ hi; simp at hi
  | cons a t ih =>
    intro i d s hnd hi
    cases i with
    | zero => simp [List.findIdx?_cons]
    | succ j =>
      have hjlen : j < t.length := by simpa using hi
      have hmem : f ((a :: t).getD (j + 1) d) ∈ t.map f := by
        have : (a :: t).getD (j + 1) d ∈ t := by
          rw [List.getD_cons_succ, List.getD_eq_getElem _ _ hjlen]
          exact List.getElem_mem hjlen
        exact List.mem_map_of_mem f this
      have hne : ¬ (f a = f ((a :: t).getD (j + 1) d)) := by
        intro he
        have : f a ∉ t.map f := (List.nodup_cons.mp (by simpa using hnd)).1
        exact this (he ▸ hmem)
      rw [List.findIdx?_cons, if_neg (by simpa using hne)]
      rw [List.getD_cons_succ]
      rw [show ∀ b : α, f b = f ((a :: t).getD (j + 1) d) ↔ f b = f (t.getD j d) from
        fun b => by rw [List.getD_cons_succ]] at *
      have := ih j d (s + 1) (List.nodup_cons.mp (by simpa using hnd)).2 hjlen
      rw [this]
      congr 1
      omega

lemma commitIndex_getD (commits : List Commit)
    (hnd : (commits.map Commit.hash).Nodup) (k : Nat) (hk : k < commits.length) :
    commitIndex commits ((commits.getD k default).hash) = some k := by
  rw [commitIndex]
  have hrevlen : commits.length - 1 - k < commits.reverse.length := by
    simp; omega
  have hrev : commits.reverse.getD (commits.length - 1 - k) default =
      commits.getD k default := by
    rw [List.getD_eq_getElem _ _ hrevlen, List.getD_eq_getElem _ _ hk,
      List.getElem_reverse]
    congr 1
    omega
  have hnd2 : (commits.reverse.map Commit.hash).Nodup := by
    rw [List.map_reverse]
    exact List.nodup_reverse.mpr hnd
  have hfind := findIdx?_map_nodup Commit.hash commits.reverse
    (commits.length - 1 - k) default 0 hnd2 (by simpa using hrevlen)
  rw [hrev] at hfind
  rw [hfind]
  simp
  omega

lemma isMergeTarget_chain (n k j : Nat) :
    isMergeTarget ((List.range n).map (placedChainVert n k)) j = false := by
  rw [isMergeTarget, List.any_eq_false]
  intro v hv
  rw [List.mem_map] at hv
  obtain ⟨m, _, rfl⟩ := hv
  rw [placedChainVert]
  by_cases h : m + 1 < n <;> simp [h]

lemma placed_set (n k : Nat) :
    ((List.range n).map (placedChainVert n k)).set k
        ⟨if k + 1 < n then [k + 1] else [], if k = 0 then [] else [k - 1],
         (0 : Int), (0 : Int)⟩ =
      (List.range n).map (placedChainVert n (k + 1)) := by
  rw [set_map_range]
  apply List.ext_getElem (by simp)
  intro m h1 h2
  simp only [List.getElem_map, List.getElem_range]
  by_cases hm : m = k
  · subst hm
    simp [placedChainVert, (by omega : m < m + 1)]
  · rw [if_neg hm]
    simp only [placedChainVert, GVertex.mk.injEq, true_and]
    constructor <;>
    · by_cases h3 : m < k
      · rw [if_pos h3, if_pos (by omega)]
      · rw [if_neg h3, if_neg (by omega)]

lemma layoutStep_chain_zero (mt : Nat → Bool) (n : Nat) (hn : 0 < n)
    (ls ps : List LaneState) (mx : Nat) :
    layoutStep mt ⟨(List.range n).map (placedChainVert n 0), [], [], 0, ls, ps, mx⟩ 0 =
      ⟨(List.range n).map (placedChainVert n 1),
       if 1 < n then [(1 : Int)] else [],
       if 1 < n then [(0 : Int)] else [],
       1,
       ls ++ [⟨[(0 : Int)], [(0 : Int)], 1⟩],
       ps ++ [if 1 < n then ⟨[(1 : Int)], [(0 : Int)], 1⟩ else ⟨[], [], 0⟩],
       if 1 < n then (if 1 > mx then 1 else mx) else mx⟩ := by
  have hv0 : ((List.range n).map (placedChainVert n 0)).getD 0 emptyVertex =
      placedChainVert n 0 0 := getD_map_range _ _ _ hn _
  by_cases h1n : 1 < n
  · have hset : ((List.range n).map (placedChainVert n 0)).set 0
        ⟨[1], [], (0 : Int), (0 : Int)⟩ =
        (List.range n).map (placedChainVert n 1) := by
      have := placed_set n 0
      simpa [h1n] using this
    simp only [layoutStep, hv0]
    simp [placedChainVert, growTo, findAvailableLane, trimEmptyTrailingLanesWithColors,
      inheritLane, reuseReservation, clearOtherLanes, freeConvergence, reserveMerges,
      List.enum, List.enumFrom, h1n, hset]
  · have hn1 : n = 1 := by omega
    subst hn1
    have hset : ((List.range 1).map (placedChainVert 1 0)).set 0
        ⟨[], [], (0 : Int), (0 : Int)⟩ =
        (List.range 1).map (placedChainVert 1 1) := by
      have := placed_set 1 0
      simpa using this
    simp only [layoutStep, hv0]
    simp [placedChainVert, growTo, findAvailableLane, trimEmptyTrailingLanesWithColors,
      inheritLane, reuseReservation, clearOtherLanes, freeConvergence, reserveMerges,
      List.enum, List.enumFrom, hset]

lemma inheritLane_chain (mt : Nat → Bool) (hmt : ∀ j, mt j = false)
    (n k : Nat) (hk1 : 1 ≤ k) (hk : k < n) :
    inheritLane ((List.range n).map (placedChainVert n k)) mt k [k - 1] = (0, 0) := by
  have hkm : k - 1 < n := by omega
  have hvm : ((List.range n).map (placedChainVert n k)).getD (k - 1) emptyVertex =
      placedChainVert n k (k - 1) := getD_map_range _ _ _ hkm _
  have hc : placedChainVert n k (k - 1) =
      ⟨[k], if k - 1 = 0 then [] else [k - 1 - 1], 0, 0⟩ := by
    simp only [placedChainVert, (show k - 1 + 1 = k by omega), if_pos hk,
      if_pos (show k - 1 < k by omega)]
  simp only [inheritLane, List.foldl_cons, List.foldl_nil, hvm, hc]
  simp [hmt]

lemma freeConvergence_chain (mt : Nat → Bool) (n k : Nat) (hk1 : 1 ≤ k) (hk : k < n)
    (lanes laneColors : List Int) :
    freeConvergence ((List.range n).map (placedChainVert n (k + 1))) k 0 [k - 1]
      lanes laneColors = (lanes, laneColors) := by
  have hkm : k - 1 < n := by omega
  have hvm2 : ((List.range n).map (placedChainVert n (k + 1))).getD (k - 1) emptyVertex =
      placedChainVert n (k + 1) (k - 1) := getD_map_range _ _ _ hkm _
  have hc2 : placedChainVert n (k + 1) (k - 1) =
      ⟨[k], if k - 1 = 0 then [] else [k - 1 - 1], 0, 0⟩ := by
    simp only [placedChainVert, (show k - 1 + 1 = k by omega), if_pos hk,
      if_pos (show k - 1 < k + 1 by omega)]
  simp only [freeConvergence, List.foldl_cons, List.foldl_nil, hvm2, hc2]
  simp

lemma clearOtherLanes_singleton (i : Nat) (a b : Int) :
    clearOtherLanes i 0 [a] [b] = ([a], [b]) := by
  simp [clearOtherLanes, List.enum, List.enumFrom]

lemma trim_singleton_occupied (a b : Int) (ha : a ≠ -1) :
    trimEmptyTrailingLanesWithColors [a] [b] = ([a], [b]) := by
  simp [trimEmptyTrailingLanesWithColors, List.findIdx?_cons, ha]

lemma layoutStep_chain_succ (mt : Nat → Bool) (hmt : ∀ j, mt j = false)
    (n k : Nat) (hk1 : 1 ≤ k) (hk : k < n)
    (ls ps : List LaneState) (mx : Nat) :
    layoutStep mt
        ⟨(List.range n).map (placedChainVert n k), [(k : Int)], [(0 : Int)], 1, ls, ps, mx⟩ k =
      ⟨(List.range n).map (placedChainVert n (k + 1)),
       if k + 1 < n then [(k : Int) + 1] else [],
       if k + 1 < n then [(0 : Int)] else [],
       1,
       ls ++ [⟨[(k : Int)], [(0 : Int)], 1⟩],
       ps ++ [if k + 1 < n then ⟨[(k : Int) + 1], [(0 : Int)], 1⟩ else ⟨[], [], 0⟩],
       if k + 1 < n then (if 1 > mx then 1 else mx) else mx⟩ := by
  have hvk : ((List.range n).map (placedChainVert n k)).getD k emptyVertex =
      placedChainVert n k k := getD_map_range _ _ _ hk _
  have hvkk : placedChainVert n k k =
      ⟨if k + 1 < n then [k + 1] else [], [k - 1], -1, -1⟩ := by
    simp only [placedChainVert, if_neg (show ¬ k = 0 by omega),
      if_neg (show ¬ k < k by omega)]
  have hinh := inheritLane_chain mt hmt n k hk1 hk
  have hfree := freeConvergence_chain mt n k hk1 hk [(k : Int)] [(0 : Int)]
  by_cases h2 : k + 1 < n
  · have hset : ((List.range n).map (placedChainVert n k)).set k
        ⟨[k + 1], [k - 1], (0 : Int), (0 : Int)⟩ =
        (List.range n).map (placedChainVert n (k + 1)) := by
      have := placed_set n k
      simpa [h2, (show ¬ k = 0 by omega)] using this
    have hcast : ((k + 1 : Nat) : Int) = (k : Int) + 1 := by push_cast; ring
    have hne : ((k : Int) + 1) ≠ -1 := by omega
    simp only [layoutStep, hvk, hvkk]
    simp [hinh, growTo, findAvailableLane, clearOtherLanes_singleton, h2, hset,
      hfree, reserveMerges, hcast, trim_singleton_occupied _ _ hne]
  · have hn1 : n = k + 1 := by omega
    have hset : ((List.range n).map (placedChainVert n k)).set k
        ⟨[], [k - 1], (0 : Int), (0 : Int)⟩ =
        (List.range n).map (placedChainVert n (k + 1)) := by
      have := placed_set n k
      simpa [h2, (show ¬ k = 0 by omega)] using this
    simp only [layoutStep, hvk, hvkk]
    simp [hinh, growTo, findAvailableLane, clearOtherLanes_singleton, h2, hset,
      hfree, reserveMerges, trimEmptyTrailingLanesWithColors]


lemma computeLayout_chain_aux (n : Nat) (mt : Nat → Bool) (hmt : ∀ j, mt j = false) :
    ∀ k, 1 ≤ k → k ≤ n →
      ∃ ls ps mx, (List.range k).foldl (layoutStep mt)
          ⟨(List.range n).map (placedChainVert n 0), [], [], 0, [], [], 0⟩ =
        ⟨(List.range n).map (placedChainVert n k),
         if k < n then [(k : Int)] else [],
         if k < n then [(0 : Int)] else [], 1, ls, ps, mx⟩ := by
  intro k
  induction k with
  | zero => intro h1 _; exact absurd h1 (by omega)
  | succ k ih =>
    intro _ hkn
    by_cases hk0 : k = 0
    · subst hk0
      refine ⟨[⟨[(0 : Int)], [(0 : Int)], 1⟩],
        [if 1 < n then ⟨[(1 : Int)], [(0 : Int)], 1⟩ else ⟨[], [], 0⟩],
        if 1 < n then (if 1 > 0 then 1 else 0) else 0, ?_⟩
      have h0 := layoutStep_chain_zero mt n (by omega) [] [] 0
      simp only [List.range_succ, List.range_zero, List.nil_append, List.foldl_cons,
        List.foldl_nil]
      rw [h0]
      norm_num
    · have hk1 : 1 ≤ k := by omega
      have hkltn : k < n := by omega
      obtain ⟨ls, ps, mx, hfold⟩ := ih hk1 (by omega)
      refine ⟨ls ++ [⟨[(k : Int)], [(0 : Int)], 1⟩],
        ps ++ [if k + 1 < n then ⟨[(k : Int) + 1], [(0 : Int)], 1⟩ else ⟨[], [], 0⟩],
        if k + 1 < n then (if 1 > mx then 1 else mx) else mx, ?_⟩
      rw [List.range_succ, List.foldl_append, hfold]
      simp only [List.foldl_cons, List.foldl_nil, if_pos hkltn]
      rw [layoutStep_chain_succ mt hmt n k hk1 hkltn ls ps mx]
      norm_num

lemma buildVertices_chain (commits : List Commit)
    (hnd : (commits.map Commit.hash).Nodup)
    (hpar : ∀ i, i + 1 < commits.length →
      (commits.getD i default).parents = [(commits.getD (i + 1) default).hash])
    (hlast : 0 < commits.length →
      (commits.getD (commits.length - 1) default).parents = []) :
    buildVertices commits =
      (List.range commits.length).map (placedChainVert commits.length 0) := by
  have key : ∀ k, k ≤ commits.length →
      (List.range k).foldl
        (fun verts i =>
          ((commits.getD i default).parents).foldl (fun verts parentHash =>
            match commitIndex commits parentHash with
            | some parentIdx =>
              let verts2 := verts.set i { verts.getD i emptyVertex with
                parents := (verts.getD i emptyVertex).parents ++ [parentIdx] }
              verts2.set parentIdx { verts2.getD parentIdx emptyVertex with
                children := (verts2.getD parentIdx emptyVertex).children ++ [i] }
            | none => verts) verts)
        (commits.map (fun _ => emptyVertex)) =
      (List.range commits.length).map (fun j =>
        (⟨if j < k ∧ j + 1 < commits.length then [j + 1] else [],
          if 1 ≤ j ∧ j ≤ k then [j - 1] else [], -1, -1⟩ : GVertex)) := by
    intro k
    induction k with
    | zero =>
      intro _
      simp only [List.range_zero, List.foldl_nil]
      apply List.ext_getElem (by simp)
      intro m h1 h2
      simp only [List.getElem_map, List.getElem_range]
      rw [if_neg (by omega), if_neg (by omega)]
      rfl
    | succ k ih =>
      intro hkn
      rw [List.range_succ, List.foldl_append, ih (by omega), List.foldl_cons,
        List.foldl_nil]
      by_cases h2 : k + 1 < commits.length
      · rw [hpar k h2, List.foldl_cons, List.foldl_nil,
          commitIndex_getD commits hnd (k + 1) h2]
        have hgk : ((List.range commits.length).map (fun j =>
            (⟨if j < k ∧ j + 1 < commits.length then [j + 1] else [],
              if 1 ≤ j ∧ j ≤ k then [j - 1] else [], -1, -1⟩ : GVertex))).getD k
              emptyVertex =
            ⟨[], if 1 ≤ k ∧ k ≤ k then [k - 1] else [], -1, -1⟩ := by
          rw [getD_map_range _ _ _ (by omega)]
          rw [if_neg (by omega)]
        rw [hgk]
        simp only [List.nil_append]
        rw [set_map_range]
        have hgk2 : ((List.range commits.length).map (fun j =>
            if j = k then
              (⟨[k + 1], if 1 ≤ k ∧ k ≤ k then [k - 1] else [], -1, -1⟩ : GVertex)
            else ⟨if j < k ∧ j + 1 < commits.length then [j + 1] else [],
              if 1 ≤ j ∧ j ≤ k then [j - 1] else [], -1, -1⟩)).getD (k + 1)
              emptyVertex = ⟨[], [], -1, -1⟩ := by
          rw [getD_map_range _ _ _ h2]
          rw [if_neg (by omega), if_neg (by omega), if_neg (by omega)]
        rw [hgk2]
        simp only [List.nil_append]
        rw [set_map_range]
        apply List.ext_getElem (by simp)
        intro m hm1 hm2
        have hmn : m < commits.length := by simpa using hm1
        simp only [List.getElem_map, List.getElem_range]
        split_ifs <;> first | rfl | (exfalso; omega) | (simp; omega)
      · have hlk : k = commits.length - 1 := by omega
        have hplen : 0 < commits.length := by omega
        rw [show (commits.getD k default).parents = [] from hlk ▸ hlast hplen,
          List.foldl_nil]
        apply List.ext_getElem (by simp)
        intro m hm1 hm2
        have hmn : m < commits.length := by simpa using hm1
        simp only [List.getElem_map, List.getElem_range]
        split_ifs <;> first | rfl | (exfalso; omega) | (simp; omega)
  have hfin := key commits.length le_rfl
  refine Eq.trans hfin ?_
  apply List.ext_getElem (by simp)
  intro m hm1 hm2
  have hmn : m < commits.length := by simpa using hm1
  simp only [List.getElem_map, List.getElem_range, placedChainVert]
  simp only [GVertex.mk.injEq]
  refine ⟨?_, ?_, by rw [if_neg (by omega)], by rw [if_neg (by omega)]⟩
  · by_cases hc : m + 1 < commits.length
    · rw [if_pos (by omega), if_pos hc]
    · rw [if_neg (by omega), if_neg hc]
  · by_cases hc : m = 0
    · rw [if_neg (by omega), if_pos hc]
    · rw [if_pos (by omega), if_neg hc]

/-! ## Claim C3 -/

/-- C3: for every commit list forming a linear chain newest-first (each
commit has exactly the next commit in the list as its only parent, the
last commit has none, hashes are distinct), the layout pass assigns lane
0 to every vertex. -/
theorem c3_linear_chain_lane_zero (commits : List Commit)
    (hnd : (commits.map Commit.hash).Nodup)
    (hpar : ∀ i, i + 1 < commits.length →
      (commits.getD i default).parents = [(commits.getD (i + 1) default).hash])
    (hlast : 0 < commits.length →
      (commits.getD (commits.length - 1) default).parents = [])
    (i : Nat) (hi : i < commits.length) :
    ((InitGraph commits).verts.getD i emptyVertex).x = 0 := by
  have hbv := buildVertices_chain commits hnd hpar hlast
  obtain ⟨ls, ps, mx, hfold⟩ := computeLayout_chain_aux commits.length
    (isMergeTarget ((List.range commits.length).map (placedChainVert commits.length 0)))
    (isMergeTarget_chain commits.length 0) commits.length (by omega) le_rfl
  have hstate : InitGraph commits =
      ⟨(List.range commits.length).map (placedChainVert commits.length commits.length),
       if commits.length < commits.length then [(commits.length : Int)] else [],
       if commits.length < commits.length then [(0 : Int)] else [], 1, ls, ps, mx⟩ := by
    unfold InitGraph computeLayout
    rw [hbv]
    rw [show ((List.range commits.length).map
      (placedChainVert commits.length 0)).length = commits.length by simp]
    exact hfold
  rw [hstate]
  show (((List.range commits.length).map (placedChainVert commits.length
      commits.length)).getD i emptyVertex).x = 0
  rw [getD_map_range _ _ _ hi]
  simp [placedChainVert, hi]

/-- Witness for c3_linear_chain_lane_zero: the two-commit chain scenario;
both vertices receive lane 0. -/
theorem c3_linear_chain_lane_zero_witness :
    ((InitGraph [⟨"B", ["A"], []⟩, ⟨"A", [], []⟩]).verts.getD 0 emptyVertex).x = 0 ∧
    ((InitGraph [⟨"B", ["A"], []⟩, ⟨"A", [], []⟩]).verts.getD 1 emptyVertex).x = 0 := by
  have hpar : ∀ i, i + 1 < ([⟨"B", ["A"], []⟩, ⟨"A", [], []⟩] : List Commit).length →
      (([⟨"B", ["A"], []⟩, ⟨"A", [], []⟩] : List Commit).getD i default).parents =
        [(([⟨"B", ["A"], []⟩, ⟨"A", [], []⟩] : List Commit).getD (i + 1) default).hash] := by
    intro i hi
    have h0 : i = 0 := by simp at hi; omega
    subst h0
    rfl
  exact ⟨c3_linear_chain_lane_zero _ (by decide) hpar (fun _ => rfl) 0 (by decide),
    c3_linear_chain_lane_zero _ (by decide) hpar (fun _ => rfl) 1 (by decide)⟩

/-! ## Claim C1 -/

/-- C1 counterexample: in the merge scenario with commits C(parents A,B),
B, A, the first parent A ends up in the SAME lane and with the SAME color
as the merge commit C itself (the first parent continues the merge
commit's own lane), refuting the claim that neither parent's lane nor
color equals the merge commit's. -/
theorem c1_merge_parent_lanes_counterexample :
    ((InitGraph [⟨"C", ["A", "B"], []⟩, ⟨"B", [], []⟩,
        ⟨"A", [], []⟩]).verts.getD 2 emptyVertex).x =
      ((InitGraph [⟨"C", ["A", "B"], []⟩, ⟨"B", [], []⟩,
        ⟨"A", [], []⟩]).verts.getD 0 emptyVertex).x ∧
    ((InitGraph [⟨"C", ["A", "B"], []⟩, ⟨"B", [], []⟩,
        ⟨"A", [], []⟩]).verts.getD 2 emptyVertex).color =
      ((InitGraph [⟨"C", ["A", "B"], []⟩, ⟨"B", [], []⟩,
        ⟨"A", [], []⟩]).verts.getD 0 emptyVertex).color := by
  decide

/-- C1 (amended): in the merge scenario C(parents A,B), B, A, the two
parents end up in two distinct lanes with two distinct colors; the
secondary parent B gets a lane and a color distinct from the merge commit
C's own; the first parent A inherits C's own lane and color (C sits in
lane 0 color 0, B in lane 1 color 1, A in lane 0 color 0). -/
theorem c1_merge_parent_lanes :
    ((InitGraph [⟨"C", ["A", "B"], []⟩, ⟨"B", [], []⟩,
        ⟨"A", [], []⟩]).verts.getD 0 emptyVertex).x = 0 ∧
    ((InitGraph [⟨"C", ["A", "B"], []⟩, ⟨"B", [], []⟩,
        ⟨"A", [], []⟩]).verts.getD 0 emptyVertex).color = 0 ∧
    ((InitGraph [⟨"C", ["A", "B"], []⟩, ⟨"B", [], []⟩,
        ⟨"A", [], []⟩]).verts.getD 1 emptyVertex).x = 1 ∧
    ((InitGraph [⟨"C", ["A", "B"], []⟩, ⟨"B", [], []⟩,
        ⟨"A", [], []⟩]).verts.getD 1 emptyVertex).color = 1 ∧
    ((InitGraph [⟨"C", ["A", "B"], []⟩, ⟨"B", [], []⟩,
        ⟨"A", [], []⟩]).verts.getD 2 emptyVertex).x = 0 ∧
    ((InitGraph [⟨"C", ["A", "B"], []⟩, ⟨"B", [], []⟩,
        ⟨"A", [], []⟩]).verts.getD 2 emptyVertex).color = 0 := by
  decide

/-! ## Claim C6 -/

lemma trim_fst_getLast (lanes laneColors : List Int) :
    (trimEmptyTrailingLanesWithColors lanes laneColors).1.getLast? ≠ some (-1) := by
  unfold trimEmptyTrailingLanesWithColors
  cases hf : lanes.reverse.findIdx? (fun o => decide (o ≠ -1)) with
  | none => simp
  | some j =>
    obtain ⟨hjlt, hpj, _⟩ := List.findIdx?_eq_some_iff_getElem.mp hf
    have hjl : j < lanes.length := by simpa using hjlt
    have hlen : (lanes.take (lanes.length - 1 - j + 1)).length =
        lanes.length - 1 - j + 1 := by
      simp [List.length_take]
      omega
    have hlast : (lanes.take (lanes.length - 1 - j + 1)).getLast? =
        some lanes[lanes.length - 1 - j] := by
      rw [List.getLast?_eq_getElem?, hlen, Nat.add_sub_cancel,
        List.getElem?_eq_getElem (by rw [hlen]; omega), List.getElem_take]
    simp only [hlast]
    intro hcon
    rw [Option.some_inj] at hcon
    rw [List.getElem_reverse] at hpj
    simp [hcon] at hpj

lemma layoutStep_post_mem (mt : Nat → Bool) (st : LayoutState) (i : Nat)
    (t : LaneState) (ht : t ∈ (layoutStep mt st i).postLaneSnapshots) :
    t ∈ st.postLaneSnapshots ∨ t.lanes.getLast? ≠ some (-1) := by
  simp only [layoutStep] at ht
  rw [List.mem_append] at ht
  rcases ht with ht | ht
  · exact Or.inl ht
  · right
    rw [List.mem_singleton] at ht
    subst ht
    exact trim_fst_getLast _ _

lemma foldl_post_snapshots (mt : Nat → Bool) :
    ∀ (idxs : List Nat) (st : LayoutState),
      (∀ t ∈ st.postLaneSnapshots, t.lanes.getLast? ≠ some (-1)) →
      ∀ t ∈ (idxs.foldl (layoutStep mt) st).postLaneSnapshots,
        t.lanes.getLast? ≠ some (-1) := by
  intro idxs
  induction idxs with
  | nil => intro st h t ht; exact h t ht
  | cons i rest ih =>
    intro st h t ht
    rw [List.foldl_cons] at ht
    refine ih (layoutStep mt st i) ?_ t ht
    intro u hu
    rcases layoutStep_post_mem mt st i u hu with hu2 | hu2
    · exact h u hu2
    · exact hu2

/-- C6: the trimming function returns a prefix of the lane table whose
colors are trimmed in lockstep, past whose end every lane is empty, and
whose last entry (when the result is nonempty) is occupied — so its
length is exactly one past the highest-index occupied lane, with empty
output when no lane is occupied; consequently every post-snapshot
captured by the layout pass never ends in an empty slot. -/
theorem c6_trim_lane_tables :
    (∀ lanes laneColors : List Int, laneColors.length = lanes.length →
      (trimEmptyTrailingLanesWithColors lanes laneColors).1 =
        lanes.take (trimEmptyTrailingLanesWithColors lanes laneColors).1.length ∧
      (trimEmptyTrailingLanesWithColors lanes laneColors).2.length =
        (trimEmptyTrailingLanesWithColors lanes laneColors).1.length ∧
      (∀ k, (trimEmptyTrailingLanesWithColors lanes laneColors).1.length ≤ k →
        lanes.getD k (-1) = -1) ∧
      (trimEmptyTrailingLanesWithColors lanes laneColors).1.getLast? ≠ some (-1)) ∧
    (∀ verts : List GVertex, ∀ t ∈ (computeLayout verts).postLaneSnapshots,
      t.lanes.getLast? ≠ some (-1)) := by
  constructor
  · intro lanes laneColors hlen
    refine ⟨?_, ?_, ?_, trim_fst_getLast lanes laneColors⟩
    · unfold trimEmptyTrailingLanesWithColors
      cases hf : lanes.reverse.findIdx? (fun o => decide (o ≠ -1)) with
      | none => simp
      | some j =>
        obtain ⟨hjlt, _, _⟩ := List.findIdx?_eq_some_iff_getElem.mp hf
        have hjl : j < lanes.length := by simpa using hjlt
        simp only [List.length_take]
        rw [Nat.min_eq_left (by omega)]
    · unfold trimEmptyTrailingLanesWithColors
      cases hf : lanes.reverse.findIdx? (fun o => decide (o ≠ -1)) with
      | none => simp
      | some j => simp only [List.length_take, hlen]
    · unfold trimEmptyTrailingLanesWithColors
      cases hf : lanes.reverse.findIdx? (fun o => decide (o ≠ -1)) with
      | none =>
        intro k _
        have hall := List.findIdx?_eq_none_iff.mp hf
        by_cases hk : k < lanes.length
        · have hmemr : lanes.getD k (-1) ∈ lanes.reverse := by
            rw [List.mem_reverse, List.getD_eq_getElem _ _ hk]
            exact List.getElem_mem hk
          have := hall _ hmemr
          simpa using this
        · exact List.getD_eq_default _ _ (by omega)
      | some j =>
        obtain ⟨hjlt, _, hprev⟩ := List.findIdx?_eq_some_iff_getElem.mp hf
        have hjl : j < lanes.length := by simpa using hjlt
        intro k hk
        simp only [List.length_take] at hk
        by_cases hkl : k < lanes.length
        · have hrev : lanes.length - 1 - k < j := by omega
          have h1 := hprev _ hrev
          rw [List.getElem_reverse] at h1
          have h2 : ¬ decide (lanes.getD (lanes.length - 1 - (lanes.length - 1 - k))
              (-1) ≠ -1) = true := by
            rw [List.getD_eq_getElem _ _ (by omega)]
            exact h1
          rw [show lanes.length - 1 - (lanes.length - 1 - k) = k from by omega] at h2
          simpa using h2
        · exact List.getD_eq_default _ _ (by omega)
  · intro verts t ht
    refine foldl_post_snapshots _ _ _ ?_ t ht
    intro u hu
    simp at hu

/-- Witness for c6_trim_lane_tables: the trimming conjunct applied to a
concrete two-lane table with an occupied first lane and an empty trailing
lane. -/
theorem c6_trim_lane_tables_witness :
    (trimEmptyTrailingLanesWithColors [3, -1] [5, -1]).1 = [3] ∧
    (trimEmptyTrailingLanesWithColors [3, -1] [5, -1]).2.length =
      (trimEmptyTrailingLanesWithColors [3, -1] [5, -1]).1.length ∧
    (trimEmptyTrailingLanesWithColors [3, -1] [5, -1]).1.getLast? ≠ some (-1) := by
  have h := c6_trim_lane_tables.1 [3, -1] [5, -1] rfl
  exact ⟨by decide, h.2.1, h.2.2.2⟩

/-! ## Claim C9 -/

/-- C9: the diff parser unconditionally skips any raw line beginning with
three minus signs or three plus signs, whatever the current hunk state:
the line contributes no parsed output and leaves both line counters
untouched, so every later old-line number in the hunk is shifted.  The
closed conjunct shows the shift concretely: inside a hunk starting at old
line 10, a removal whose content begins with two minus signs (raw line
beginning with three) is dropped, and the next removal still gets old
number 10. -/
theorem c9_triple_minus_lines_skipped :
    (∀ (oldLine newLine : Int) (line : String) (rest : List String),
      (strHasPrefix line "---" = true ∨ strHasPrefix line "+++" = true) →
      parseDiffLinesAux oldLine newLine (line :: rest) =
        parseDiffLinesAux oldLine newLine rest) ∧
    parseDiffLines "@@ -10,3 +10,1 @@\n---a\n-b" =
      [⟨'@', "@@ -10,3 +10,1 @@", 0, 0⟩, ⟨'-', "b", 10, 0⟩] := by
  constructor
  · intro oldLine newLine line rest h
    rcases h with h | h <;>
      simp [parseDiffLinesAux, h]
  · decide

/-- Witness for c9_triple_minus_lines_skipped: the skip equation applied
at a concrete state and line. -/
theorem c9_triple_minus_lines_skipped_witness :
    parseDiffLinesAux 7 3 ["---a", "-b"] = parseDiffLinesAux 7 3 ["-b"] :=
  c9_triple_minus_lines_skipped.1 7 3 "---a" ["-b"] (Or.inl (by decide))

/-! ## Claim C7 -/

/-- C7 counterexample: the header below matches none of the four
recognized hunk forms (the plus side is not an integer), yet the parser
does not fall back to zero-valued counters: the old counter keeps the 5
scanned before the mismatch. -/
theorem c7_malformed_hunk_counterexample :
    parseHunkHeader "@@ -5,2 +x @@" ≠ (0, 0) := by decide

/-- C7 (amended): a hunk header for which not even the shared leading
"@@ -int" prefix scans yields zero-valued old/new counters; a header
matching a proper prefix of a recognized form keeps the integers scanned
before the first mismatch; in every case the parse continues with the
remaining lines and never aborts (second conjunct: a fully garbled header
resets both counters to zero and the following lines still parse).  The
prefix scan includes fmt's space-run rule: a format space must consume at
least one input blank, so a header missing the blank after "@@" falls
back to zero even though an integer follows (third conjunct). -/
theorem c7_malformed_hunk_header_fallback :
    (∀ line : String, sscanf hunkFmtPre line.data = [] →
      parseHunkHeader line = (0, 0)) ∧
    parseDiffLines "@@ !! @@\n-x\n+y" =
      [⟨'@', "@@ !! @@", 0, 0⟩, ⟨'-', "x", 0, 0⟩, ⟨'+', "y", 0, 0⟩] ∧
    parseHunkHeader "@@-5,2 +3,4 @@" = (0, 0) ∧
    parseHunkHeader "@@ -5,2 +x @@" = (5, 0) := by
  refine ⟨?_, by decide, by decide, by decide⟩
  intro line h
  have e1 : sscanf hunkFmtFull line.data = [] := sscanf_hunkFmtPre_append _ line.data h
  have e2 : sscanf hunkFmtShort line.data = [] := sscanf_hunkFmtPre_append _ line.data h
  have e3 : sscanf hunkFmtOldCount line.data = [] := sscanf_hunkFmtPre_append _ line.data h
  have e4 : sscanf hunkFmtNewCount line.data = [] := sscanf_hunkFmtPre_append _ line.data h
  simp [parseHunkHeader, e1, e2, e3, e4]

/-- Witness for c7_malformed_hunk_header_fallback: the zero-fallback
conjunct applied to a concrete garbled header. -/
theorem c7_malformed_hunk_header_fallback_witness :
    parseHunkHeader "@@ garbage @@" = (0, 0) :=
  c7_malformed_hunk_header_fallback.1 "@@ garbage @@" (by decide)

/-! ## Claim C4 -/

/-- C4: a maximal run of consecutive removals followed by a maximal run
of consecutive additions is zipped index-by-index: row j carries the j-th
removal on the left and the j-th addition on the right, with the zero
(blank) side wherever one run is shorter.  The hypotheses state exactly
the maximality of the two runs inside the line list. -/
theorem c4_adjacent_runs_zipped (removes adds rest : List DiffLine)
    (h1 : removes ≠ [])
    (h2 : ∀ l ∈ removes, l.kind = '-')
    (h3 : ∀ l ∈ adds, l.kind = '+')
    (h4 : ∀ l, rest.head? = some l → l.kind ≠ '+')
    (h5 : adds = [] → ∀ l, rest.head? = some l → l.kind ≠ '-') :
    buildSideBySidePairs (removes ++ adds ++ rest) =
      zipRows removes adds ++ buildSideBySidePairs rest := by
  obtain ⟨dl, rtail, rfl⟩ := List.exists_cons_of_ne_nil h1
  have hdl : dl.kind = '-' := h2 dl (by simp)
  have hall : ∀ a ∈ rtail, (fun l : DiffLine => decide (l.kind = '-')) a = true := by
    intro a ha; simp [h2 a (by simp [ha])]
  have hheadm : ∀ a, (adds ++ rest).head? = some a →
      (fun l : DiffLine => decide (l.kind = '-')) a = false := by
    intro a ha
    cases adds with
    | nil =>
      simp only [List.nil_append] at ha
      simp [h5 rfl a ha]
    | cons b bs =>
      simp only [List.cons_append, List.head?_cons, Option.some.injEq] at ha
      subst ha
      simp [h3 b (by simp)]
  have hheadp : ∀ a, rest.head? = some a →
      (fun l : DiffLine => decide (l.kind = '+')) a = false := by
    intro a ha; simp [h4 a ha]
  have haddall : ∀ a ∈ adds, (fun l : DiffLine => decide (l.kind = '+')) a = true := by
    intro a ha; simp [h3 a ha]
  have ht : (rtail ++ (adds ++ rest)).takeWhile (fun l => decide (l.kind = '-')) = rtail := by
    rw [takeWhile_append_of_all _ _ _ hall, takeWhile_eq_nil_of_head _ _ hheadm,
      List.append_nil]
  have hd : (rtail ++ (adds ++ rest)).dropWhile (fun l => decide (l.kind = '-')) =
      adds ++ rest := by
    rw [dropWhile_append_of_all _ _ _ hall, dropWhile_eq_self_of_head _ _ hheadm]
  have ht2 : (adds ++ rest).takeWhile (fun l => decide (l.kind = '+')) = adds := by
    rw [takeWhile_append_of_all _ _ _ haddall, takeWhile_eq_nil_of_head _ _ hheadp,
      List.append_nil]
  have hd2 : (adds ++ rest).dropWhile (fun l => decide (l.kind = '+')) = rest := by
    rw [dropWhile_append_of_all _ _ _ haddall, dropWhile_eq_self_of_head _ _ hheadp]
  rw [List.cons_append, buildSideBySidePairs.eq_def]
  simp [hdl, ht, hd, ht2, hd2]

/-- Witness for c4_adjacent_runs_zipped: three removals followed by one
addition yield exactly three rows, the first with both sides populated,
the second and third with a populated left side and the zero-valued blank
right side. -/
theorem c4_adjacent_runs_zipped_witness :
    buildSideBySidePairs
        [⟨'-', "a", 1, 0⟩, ⟨'-', "b", 2, 0⟩, ⟨'-', "c", 3, 0⟩, ⟨'+', "x", 0, 1⟩] =
      [⟨1, "a", '-', 1, "x", '+'⟩,
       ⟨2, "b", '-', 0, "", blankKind⟩,
       ⟨3, "c", '-', 0, "", blankKind⟩] := by
  have h := c4_adjacent_runs_zipped
    [⟨'-', "a", 1, 0⟩, ⟨'-', "b", 2, 0⟩, ⟨'-', "c", 3, 0⟩] [⟨'+', "x", 0, 1⟩] []
    (by decide) (by decide) (by decide)
    (fun l hl => by simp at hl) (fun _ l hl => by simp at hl)
  refine h.trans ?_
  simp only [buildSideBySidePairs, List.takeWhile_nil, List.dropWhile_nil]
  decide

/-! ## Claim C8 -/

/-- C8 counterexample: the empty diff string is an input whose pairing
yields one row (at most 300), yet nothing is rendered, so the claim that
all rows are rendered for 300 or fewer pairs fails on the empty input. -/
theorem c8_empty_diff_counterexample :
    FormatDiffLines "" 80 = [] ∧
    (buildSideBySidePairs (parseDiffLines "")).length = 1 := by
  constructor
  · rfl
  · have hp : parseDiffLines "" = [⟨' ', "", 0, 0⟩] := by decide
    rw [hp]
    simp only [buildSideBySidePairs, List.takeWhile_nil, List.dropWhile_nil]
    decide

/-- C8 (amended): for every nonempty diff input, when the pairing yields
more than 300 rows the output is exactly the first 300 rendered rows plus
one summary row reporting the remaining count, 301 rows in total; with
300 or fewer pairs every pair is rendered and no summary row is added.
The empty diff input renders nothing. -/
theorem c8_diff_render_cap (diff : String) (maxWidth : Int) (hd : diff ≠ "") :
    (300 < (buildSideBySidePairs (parseDiffLines diff)).length →
      FormatDiffLines diff maxWidth =
        ((buildSideBySidePairs (parseDiffLines diff)).map (fun p =>
            renderSideBySideRow p maxWidth (max (max ((maxWidth - 1) / 2) 10 - 5) 4))).take 300 ++
          ["  ... " ++ toString ((buildSideBySidePairs (parseDiffLines diff)).length - 300) ++
            " more lines (truncated)"] ∧
      (FormatDiffLines diff maxWidth).length = 301) ∧
    ((buildSideBySidePairs (parseDiffLines diff)).length ≤ 300 →
      FormatDiffLines diff maxWidth =
        (buildSideBySidePairs (parseDiffLines diff)).map (fun p =>
          renderSideBySideRow p maxWidth (max (max ((maxWidth - 1) / 2) 10 - 5) 4))) := by
  constructor
  · intro hlen
    have hcap : 300 < ((buildSideBySidePairs (parseDiffLines diff)).map (fun p =>
        renderSideBySideRow p maxWidth (max (max ((maxWidth - 1) / 2) 10 - 5) 4))).length := by
      simpa using hlen
    constructor
    · simp only [FormatDiffLines, if_neg hd, List.length_map]
      rw [if_pos (by simpa using hlen)]
    · simp only [FormatDiffLines, if_neg hd, List.length_map]
      rw [if_pos (by simpa using hlen)]
      simp [Nat.min_eq_left (le_of_lt (by simpa using hlen))]
  · intro hlen
    simp only [FormatDiffLines, if_neg hd, List.length_map]
    rw [if_neg (by simpa using Nat.not_lt.mpr hlen)]

/-- Witness for c8_diff_render_cap: a one-line diff has one pair and is
rendered in full with no summary row. -/
theorem c8_diff_render_cap_witness :
    FormatDiffLines "-a" 80 = ["0a│"] := by
  have hp : buildSideBySidePairs (parseDiffLines "-a") =
      [⟨0, "a", '-', 0, "", blankKind⟩] := by
    have h0 : parseDiffLines "-a" = [⟨'-', "a", 0, 0⟩] := by decide
    rw [h0]
    simp only [buildSideBySidePairs, List.takeWhile_nil, List.dropWhile_nil]
    decide
  have h := (c8_diff_render_cap "-a" 80 (by decide)).2 (by rw [hp]; decide)
  rw [hp] at h
  refine h.trans ?_
  decide

/-- C2: SetCommits with both the previously selected and the previously
expanded commit hashes found in the new list at their previous positions
keeps the prior scroll offset verbatim, subject only to clamping into the
valid range; when the selected hash no longer occurs, the cursor is
deterministically clamped into the new list's range; when the expanded
hash no longer occurs, the expansion state collapses (expandedIdx = -1,
expandState = none). -/
theorem c2_setcommits_preservation (m : NavModel) (commits2 : List Commit) :
    ((0 ≤ m.cursor ∧ m.cursor < (m.commits.length : Int)) →
     (0 ≤ m.expandedIdx ∧ m.expandedIdx < (m.commits.length : Int)) →
     (m.commits.getD m.cursor.toNat default).hash ≠ "" →
     (m.commits.getD m.expandedIdx.toNat default).hash ≠ "" →
     commits2.findIdx? (fun c => c.hash = (m.commits.getD m.cursor.toNat default).hash) =
       some m.cursor.toNat →
     commits2.findIdx? (fun c => c.hash = (m.commits.getD m.expandedIdx.toNat default).hash) =
       some m.expandedIdx.toNat →
     (SetCommits m commits2).scrollOffset =
       max 0 (min m.scrollOffset
         (max 0 (totalVisualLines (SetCommits m commits2) - m.height)))) ∧
    ((0 ≤ m.cursor ∧ m.cursor < (m.commits.length : Int)) →
     (m.commits.getD m.cursor.toNat default).hash ≠ "" →
     commits2.findIdx? (fun c => c.hash = (m.commits.getD m.cursor.toNat default).hash) =
       none →
     (SetCommits m commits2).cursor =
       (if m.cursor ≥ (commits2.length : Int) then
          max 0 ((commits2.length : Int) - 1) else m.cursor) ∧
     (0 < commits2.length →
       0 ≤ (SetCommits m commits2).cursor ∧
       (SetCommits m commits2).cursor < (commits2.length : Int))) ∧
    ((0 ≤ m.expandedIdx ∧ m.expandedIdx < (m.commits.length : Int)) →
     (m.commits.getD m.expandedIdx.toNat default).hash ≠ "" →
     commits2.findIdx? (fun c => c.hash = (m.commits.getD m.expandedIdx.toNat default).hash) =
       none →
     (SetCommits m commits2).expandedIdx = -1 ∧
     (SetCommits m commits2).expandState = none) := by
  refine ⟨?_, ?_, ?_⟩
  · intro hc hexp hne1 hne2 hf1 hf2
    obtain ⟨hc0, hc1⟩ := hc
    rw [SetCommits]
    simp only [if_pos (And.intro hc0 hc1), if_pos hexp, if_pos hne1, hf1, hf2]
    rw [Int.toNat_of_nonneg hc0, Int.toNat_of_nonneg hexp.1]
    simp only [if_pos (show m.cursor ≥ 0 from hc0), if_pos hne2,
      decide_eq_true (show m.cursor = m.cursor from rfl),
      decide_eq_true (show m.expandedIdx = m.expandedIdx from rfl),
      Bool.and_self]
    simp only [decide_True, if_true]
    rw [totalVisualLines_clampScroll]
    simp only [clampScroll, totalVisualLines]
    split_ifs <;> omega
  · intro hc hne1 hfn
    obtain ⟨hc0, hc1⟩ := hc
    rw [SetCommits]
    simp only [if_pos (And.intro hc0 hc1), if_pos hne1, hfn,
      show ¬ ((-1 : Int) ≥ 0) by decide, if_false]
    by_cases hge : m.cursor ≥ (commits2.length : Int)
    · simp only [if_pos hge, Bool.false_and,
        if_neg (show ¬ (false = true) by decide)]
      rw [ensureCursorVisible_cursor]
      constructor
      · (repeat' split) <;> first | (simp_all <;> omega) | (cases commits2 <;> simp_all <;> omega) | simp_all | omega
      · intro hlen
        (repeat' split) <;> first | (simp_all <;> omega) | (cases commits2 <;> simp_all <;> omega) | simp_all | omega
    · simp only [if_neg hge, Bool.false_and,
        if_neg (show ¬ (false = true) by decide)]
      rw [ensureCursorVisible_cursor]
      constructor
      · (repeat' split) <;> first | (simp_all <;> omega) | (cases commits2 <;> simp_all <;> omega) | simp_all | omega
      · intro hlen
        (repeat' split) <;> first | (simp_all <;> omega) | (cases commits2 <;> simp_all <;> omega) | simp_all | omega
  · intro hexp hne2 hfn
    rw [SetCommits]
    simp only [if_pos hexp, if_pos hne2, hfn, Bool.and_false,
      if_neg (show ¬ (false = true) by decide)]
    rw [ensureCursorVisible_expandedIdx, ensureCursorVisible_expandState]
    exact ⟨rfl, rfl⟩

/-- Evaluation of C2 on the one-commit model: an identical refresh keeps
scroll 5 modulo clamping, and replacement by a different hash clamps the
cursor and collapses the expansion. -/
theorem c2_setcommits_preservation_witness :
    ((SetCommits c2ModelA [c2CommitA]).scrollOffset =
      max 0 (min c2ModelA.scrollOffset
        (max 0 (totalVisualLines (SetCommits c2ModelA [c2CommitA]) - c2ModelA.height)))) ∧
    ((SetCommits c2ModelA [c2CommitB]).cursor =
      (if c2ModelA.cursor ≥ (([c2CommitB] : List Commit).length : Int) then
        max 0 ((([c2CommitB] : List Commit).length : Int) - 1) else c2ModelA.cursor)) ∧
    (0 ≤ (SetCommits c2ModelA [c2CommitB]).cursor ∧
      (SetCommits c2ModelA [c2CommitB]).cursor < (([c2CommitB] : List Commit).length : Int)) ∧
    ((SetCommits c2ModelA [c2CommitB]).expandedIdx = -1 ∧
      (SetCommits c2ModelA [c2CommitB]).expandState = none) := by
  refine ⟨?_, ?_, ?_, ?_⟩
  · exact (c2_setcommits_preservation c2ModelA [c2CommitA]).1 (by decide) (by decide)
      (by decide) (by decide) (by decide) (by decide)
  · exact ((c2_setcommits_preservation c2ModelA [c2CommitB]).2.1 (by decide) (by decide)
      (by decide)).1
  · exact ((c2_setcommits_preservation c2ModelA [c2CommitB]).2.1 (by decide) (by decide)
      (by decide)).2 (by decide)
  · exact (c2_setcommits_preservation c2ModelA [c2CommitB]).2.2 (by decide) (by decide)
      (by decide)

/-! Helpers for the no-expansion behaviour of the viewport. -/

lemma cursorVisualLineLoop_noExpand (mm : NavModel) (hexp : mm.expandedIdx = -1)
    (hcur : mm.cursor < (mm.commits.length : Int)) :
    ∀ (rem i : Nat) (v : Int), mm.commits.length ≤ rem + i → (i : Int) ≤ mm.cursor →
      cursorVisualLineLoop mm rem i v = v + mm.cursor - (i : Int) := by
  intro rem
  induction rem with
  | zero =>
    intro i v hfuel hi
    exfalso
    omega
  | succ rem ih =>
    intro i v hfuel hi
    have hiLen : i < mm.commits.length := by omega
    rw [cursorVisualLineLoop, if_pos hiLen]
    by_cases hic : (i : Int) = mm.cursor
    · rw [if_pos hic]
      cases hes : mm.expandState with
      | none =>
        show v = v + mm.cursor - (i : Int)
        omega
      | some es =>
        have hni : ¬(mm.expandedIdx ≥ 0 ∧ mm.expandedIdx = mm.cursor ∧ es.fileIndex ≥ 0) :=
          fun h => by rw [hexp] at h; exact absurd h.1 (by decide)
        simp only [if_neg hni]
        omega
    · have hns : ¬((i : Int) = mm.expandedIdx ∧ mm.expandState.isSome = true) := by
        intro h
        have h1 := h.1
        rw [hexp] at h1
        omega
      rw [if_neg hic, if_neg hns, ih (i + 1) (v + 1) (by omega) (by omega)]
      push_cast
      omega

lemma cursorVisualLine_noExpand (mm : NavModel) (hexp : mm.expandedIdx = -1)
    (hc0 : 0 ≤ mm.cursor) (hcur : mm.cursor < (mm.commits.length : Int)) :
    cursorVisualLine mm = mm.cursor := by
  rw [cursorVisualLine,
    cursorVisualLineLoop_noExpand mm hexp hcur mm.commits.length 0 0 (by omega) (by omega)]
  omega

lemma totalVisualLines_noExpand (mm : NavModel) (hexp : mm.expandedIdx = -1) :
    totalVisualLines mm = (mm.commits.length : Int) := by
  rw [totalVisualLines, isExpanded, hexp]
  simp

lemma ensureCursorVisible_noExpand (mm : NavModel) (hexp : mm.expandedIdx = -1)
    (hc0 : 0 ≤ mm.cursor) (hcur : mm.cursor < (mm.commits.length : Int))
    (hh : 0 < mm.height) :
    (ensureCursorVisible mm).cursor = mm.cursor ∧
    (ensureCursorVisible mm).scrollOffset =
      max 0 (min
        (if min mm.cursor mm.scrollOffset + mm.height ≤ mm.cursor then mm.cursor - mm.height + 1
         else min mm.cursor mm.scrollOffset)
        (max 0 ((mm.commits.length : Int) - mm.height))) ∧
    (mm.cursor < mm.scrollOffset →
      (ensureCursorVisible mm).scrollOffset < mm.scrollOffset) := by
  have hscroll : (ensureCursorVisible mm).scrollOffset =
      max 0 (min
        (if min mm.cursor mm.scrollOffset + mm.height ≤ mm.cursor then mm.cursor - mm.height + 1
         else min mm.cursor mm.scrollOffset)
        (max 0 ((mm.commits.length : Int) - mm.height))) := by
    simp only [ensureCursorVisible, cursorVisualLine_noExpand mm hexp hc0 hcur,
      clampScroll, totalVisualLines, isExpanded, hexp]
    simp
    split_ifs <;> omega
  refine ⟨rfl, hscroll, ?_⟩
  intro hlt
  rw [hscroll]
  split_ifs <;> omega

/-- C10: when no commit is expanded at the time SetCommits is called, the
verbatim scroll-preservation branch is never taken even if the selected
commit's hash is found at its unchanged index: the cursor is preserved but
the scroll offset is recomputed by snapping the viewport to the cursor's
visual line (which is the cursor row itself, there being no expansion) and
clamping; in particular a cursor above the viewport strictly lowers the
prior scroll offset. -/
theorem c10_setcommits_no_expansion_snaps (m : NavModel) (commits2 : List Commit)
    (hexp : m.expandedIdx = -1)
    (hc0 : 0 ≤ m.cursor) (hc1 : m.cursor < (m.commits.length : Int))
    (hne : (m.commits.getD m.cursor.toNat default).hash ≠ "")
    (hf : commits2.findIdx? (fun c => c.hash = (m.commits.getD m.cursor.toNat default).hash) =
      some m.cursor.toNat)
    (hh : 0 < m.height) :
    (SetCommits m commits2).cursor = m.cursor ∧
    (SetCommits m commits2).scrollOffset =
      max 0 (min
        (if min m.cursor m.scrollOffset + m.height ≤ m.cursor then m.cursor - m.height + 1
         else min m.cursor m.scrollOffset)
        (max 0 ((commits2.length : Int) - m.height))) ∧
    (m.cursor < m.scrollOffset →
      (SetCommits m commits2).scrollOffset < m.scrollOffset) := by
  have hcur2 : m.cursor.toNat < commits2.length :=
    (List.findIdx?_eq_some_iff_getElem.mp hf).1
  rw [SetCommits]
  simp only [if_pos (And.intro hc0 hc1), if_pos hne, hf]
  rw [if_neg (show ¬(0 ≤ m.expandedIdx ∧ m.expandedIdx < (m.commits.length : Int)) from
    fun h => by rw [hexp] at h; exact absurd h.1 (by decide))]
  simp only [if_neg (show ¬(("" : String) ≠ "") by decide), Bool.and_false,
    if_neg (show ¬(false = true) by decide)]
  rw [Int.toNat_of_nonneg hc0]
  simp only [if_pos (show m.cursor ≥ 0 from hc0)]
  exact ensureCursorVisible_noExpand _ hexp hc0
    (show m.cursor < (commits2.length : Int) by omega) hh

/-- Evaluation of C10: refreshing a one-commit model with the same hash,
no expansion, prior scroll 5 and height 3 keeps cursor 0 and recomputes
(and here strictly lowers) the scroll offset. -/
theorem c10_setcommits_no_expansion_snaps_witness :
    (SetCommits c10Model [c2CommitA]).cursor = c10Model.cursor ∧
    (SetCommits c10Model [c2CommitA]).scrollOffset =
      max 0 (min
        (if min c10Model.cursor c10Model.scrollOffset + c10Model.height ≤ c10Model.cursor then
          c10Model.cursor - c10Model.height + 1
         else min c10Model.cursor c10Model.scrollOffset)
        (max 0 ((([c2CommitA] : List Commit).length : Int) - c10Model.height))) ∧
    (c10Model.cursor < c10Model.scrollOffset →
      (SetCommits c10Model [c2CommitA]).scrollOffset < c10Model.scrollOffset) :=
  c10_setcommits_no_expansion_snaps c10Model [c2CommitA] (by decide) (by decide) (by decide)
    (by decide) (by decide) (by decide)

/-! Helpers for the selection-changed emission discipline. -/

lemma ensureCursorVisible_lastCursor (m : NavModel) :
    (ensureCursorVisible m).lastCursor = m.lastCursor := rfl

lemma clampScroll_lastCursor (m : NavModel) :
    (clampScroll m).lastCursor = m.lastCursor := rfl

lemma collapseExpanded_cursor (m : NavModel) :
    (collapseExpanded m).cursor = m.cursor := rfl

lemma collapseExpanded_lastCursor (m : NavModel) :
    (collapseExpanded m).lastCursor = m.lastCursor := rfl

lemma emitSelectionChanged_some (M : NavModel) (cmd : NavCmd)
    (h : (emitSelectionChanged M).2 = some cmd) :
    M.cursor ≠ M.lastCursor ∧
    (emitSelectionChanged M).1.cursor = M.cursor ∧
    (emitSelectionChanged M).1.lastCursor = M.cursor := by
  by_cases hc : M.cursor = M.lastCursor
  · rw [emitSelectionChanged, if_pos hc] at h
    exact absurd h (by simp)
  · refine ⟨hc, ?_, ?_⟩ <;>
      (simp only [emitSelectionChanged, if_neg hc]
       cases hsel : SelectedCommit { M with lastCursor := M.cursor } <;> simp [hsel])

lemma moveDownBottom_emit (M : NavModel) (cmd : NavCmd)
    (h : (moveDownBottom M).2 = some cmd) :
    (moveDownBottom M).1.cursor = M.cursor + 1 ∧
    M.cursor + 1 ≠ M.lastCursor ∧
    (moveDownBottom M).1.lastCursor = M.cursor + 1 := by
  by_cases hlt : M.cursor < (M.commits.length : Int) - 1
  · rw [moveDownBottom, if_pos hlt] at h ⊢
    obtain ⟨hne, hcur, hlast⟩ := emitSelectionChanged_some _ _ h
    exact ⟨hcur, hne, hlast⟩
  · rw [moveDownBottom, if_neg hlt] at h
    exact absurd h (by simp)

lemma moveUpBottom_emit (M : NavModel) (cmd : NavCmd)
    (h : (moveUpBottom M).2 = some cmd) :
    (moveUpBottom M).1.cursor = M.cursor - 1 ∧
    M.cursor - 1 ≠ M.lastCursor ∧
    (moveUpBottom M).1.lastCursor = M.cursor - 1 := by
  by_cases hgt : M.cursor > 0
  · rw [moveUpBottom, if_pos hgt] at h ⊢
    obtain ⟨hne, hcur, hlast⟩ := emitSelectionChanged_some _ _ h
    exact ⟨hcur, hne, hlast⟩
  · rw [moveUpBottom, if_neg hgt] at h
    exact absurd h (by simp)

lemma moveCursorDown_emit (m : NavModel) (cmd : NavCmd)
    (h : (moveCursorDown m).2 = some cmd) :
    (moveCursorDown m).1.cursor ≠ m.lastCursor ∧
    (moveCursorDown m).1.lastCursor = (moveCursorDown m).1.cursor ∧
    (moveCursorDown m).1.cursor ≠ m.cursor := by
  by_cases hx : isExpanded m = true
  · rw [moveCursorDown, if_pos hx] at h ⊢
    cases hes : m.expandState with
    | none =>
      simp only [hes] at h ⊢
      obtain ⟨hcur, hne, hlast⟩ := moveDownBottom_emit _ _ h
      rw [hcur, hlast]
      exact ⟨hne, rfl, by omega⟩
    | some es =>
      simp only [hes] at h ⊢
      by_cases h1 : es.expandedFile ≠ "" ∧ 0 < es.diffLines.length
      · rw [if_pos h1] at h ⊢
        by_cases h2 : expandedFileDiffEndVisLine m ≥ m.scrollOffset + m.height
        · rw [if_pos h2] at h
          exact absurd h (by simp)
        · rw [if_neg h2] at h ⊢
          by_cases h3 : es.fileIndex < (es.files.length : Int) - 1
          · rw [if_pos h3] at h
            exact absurd h (by simp)
          · rw [if_neg h3] at h ⊢
            obtain ⟨hcur, hne, hlast⟩ := moveDownBottom_emit _ _ h
            rw [hcur, hlast, collapseExpanded_cursor]
            rw [collapseExpanded_cursor, collapseExpanded_lastCursor] at hne
            exact ⟨hne, rfl, by omega⟩
      · rw [if_neg h1] at h ⊢
        by_cases h3 : es.fileIndex < (es.files.length : Int) - 1
        · rw [if_pos h3] at h
          exact absurd h (by simp)
        · rw [if_neg h3] at h ⊢
          obtain ⟨hcur, hne, hlast⟩ := moveDownBottom_emit _ _ h
          rw [hcur, hlast, collapseExpanded_cursor]
          rw [collapseExpanded_cursor, collapseExpanded_lastCursor] at hne
          exact ⟨hne, rfl, by omega⟩
  · rw [moveCursorDown, if_neg hx] at h ⊢
    obtain ⟨hcur, hne, hlast⟩ := moveDownBottom_emit _ _ h
    rw [hcur, hlast]
    exact ⟨hne, rfl, by omega⟩

lemma moveCursorUp_emit (m : NavModel) (cmd : NavCmd)
    (h : (moveCursorUp m).2 = some cmd) :
    (moveCursorUp m).1.cursor ≠ m.lastCursor ∧
    (moveCursorUp m).1.lastCursor = (moveCursorUp m).1.cursor ∧
    (moveCursorUp m).1.cursor ≠ m.cursor := by
  by_cases hx : isExpanded m = true
  · rw [moveCursorUp, if_pos hx] at h ⊢
    cases hes : m.expandState with
    | none =>
      simp only [hes] at h ⊢
      obtain ⟨hcur, hne, hlast⟩ := moveUpBottom_emit _ _ h
      rw [hcur, hlast]
      exact ⟨hne, rfl, by omega⟩
    | some es =>
      simp only [hes] at h ⊢
      by_cases h1 : es.expandedFile ≠ "" ∧ 0 < es.diffLines.length
      · rw [if_pos h1] at h
        by_cases h2 : cursorVisualLine m < m.scrollOffset
        · rw [if_pos h2] at h
          exact absurd h (by simp)
        · rw [if_neg h2] at h
          exact absurd h (by simp)
      · rw [if_neg h1] at h
        by_cases h3 : es.fileIndex > -1
        · rw [if_pos h3] at h
          exact absurd h (by simp)
        · rw [if_neg h3] at h
          exact absurd h (by simp)
  · rw [moveCursorUp, if_neg hx] at h ⊢
    obtain ⟨hcur, hne, hlast⟩ := moveUpBottom_emit _ _ h
    rw [hcur, hlast]
    exact ⟨hne, rfl, by omega⟩

lemma moveCursorUp_expanded (m : NavModel) (hx : isExpanded m = true) :
    (moveCursorUp m).2 = none ∧ (moveCursorUp m).1.cursor = m.cursor := by
  rw [moveCursorUp, if_pos hx]
  cases hes : m.expandState with
  | none =>
    rw [isExpanded, hes] at hx
    simp at hx
  | some es =>
    simp only [hes]
    by_cases h1 : es.expandedFile ≠ "" ∧ 0 < es.diffLines.length
    · rw [if_pos h1]
      by_cases h2 : cursorVisualLine m < m.scrollOffset
      · rw [if_pos h2]
        exact ⟨rfl, rfl⟩
      · rw [if_neg h2]
        exact ⟨rfl, rfl⟩
    · rw [if_neg h1]
      by_cases h3 : es.fileIndex > -1
      · rw [if_pos h3]
        exact ⟨rfl, rfl⟩
      · rw [if_neg h3]
        exact ⟨rfl, rfl⟩

lemma goToTop_emit (m : NavModel) (cmd : NavCmd)
    (h : (goToTop m).2 = some cmd) :
    (goToTop m).1.cursor ≠ m.lastCursor ∧
    (goToTop m).1.lastCursor = (goToTop m).1.cursor := by
  rw [goToTop] at h ⊢
  obtain ⟨hne, hcur, hlast⟩ := emitSelectionChanged_some _ _ h
  rw [hcur, hlast]
  exact ⟨by simpa using hne, rfl⟩

lemma goToBottom_emit (m : NavModel) (cmd : NavCmd)
    (h : (goToBottom m).2 = some cmd) :
    (goToBottom m).1.cursor ≠ m.lastCursor ∧
    (goToBottom m).1.lastCursor = (goToBottom m).1.cursor := by
  simp only [goToBottom] at h ⊢
  obtain ⟨hne, hcur, hlast⟩ := emitSelectionChanged_some _ _ h
  rw [hcur, hlast]
  refine ⟨?_, rfl⟩
  split_ifs at hne ⊢ <;> simpa using hne

lemma pageDown_emit (m : NavModel) (cmd : NavCmd)
    (h : (pageDown m).2 = some cmd) :
    (pageDown m).1.cursor ≠ m.lastCursor ∧
    (pageDown m).1.lastCursor = (pageDown m).1.cursor := by
  simp only [pageDown] at h ⊢
  obtain ⟨hne, hcur, hlast⟩ := emitSelectionChanged_some _ _ h
  rw [hcur, hlast]
  exact ⟨by simpa using hne, rfl⟩

lemma pageUp_emit (m : NavModel) (cmd : NavCmd)
    (h : (pageUp m).2 = some cmd) :
    (pageUp m).1.cursor ≠ m.lastCursor ∧
    (pageUp m).1.lastCursor = (pageUp m).1.cursor := by
  simp only [pageUp] at h ⊢
  obtain ⟨hne, hcur, hlast⟩ := emitSelectionChanged_some _ _ h
  rw [hcur, hlast]
  exact ⟨by simpa using hne, rfl⟩

lemma handleMouseWheelUp_emit (m : NavModel) (cmd : NavCmd)
    (h : (handleMouseWheelUp m).2 = some cmd) :
    (handleMouseWheelUp m).1.cursor ≠ m.lastCursor ∧
    (handleMouseWheelUp m).1.lastCursor = (handleMouseWheelUp m).1.cursor := by
  simp only [handleMouseWheelUp] at h ⊢
  obtain ⟨hne, hcur, hlast⟩ := emitSelectionChanged_some _ _ h
  rw [hcur, hlast]
  exact ⟨by simpa using hne, rfl⟩

lemma handleMouseWheelDown_emit (m : NavModel) (cmd : NavCmd)
    (h : (handleMouseWheelDown m).2 = some cmd) :
    (handleMouseWheelDown m).1.cursor ≠ m.lastCursor ∧
    (handleMouseWheelDown m).1.lastCursor = (handleMouseWheelDown m).1.cursor := by
  simp only [handleMouseWheelDown] at h ⊢
  obtain ⟨hne, hcur, hlast⟩ := emitSelectionChanged_some _ _ h
  rw [hcur, hlast]
  exact ⟨by simpa [clampScroll_lastCursor] using hne, rfl⟩

lemma clickLoop_emit (m : NavModel) (t : Int) (cmd : NavCmd) :
    ∀ (rem i : Nat) (v : Int), (clickLoop m t rem i v).2 = some cmd →
      (clickLoop m t rem i v).1.cursor ≠ m.lastCursor ∧
      (clickLoop m t rem i v).1.lastCursor = (clickLoop m t rem i v).1.cursor := by
  intro rem
  induction rem with
  | zero =>
    intro i v h
    simp only [clickLoop] at h
    exact absurd h (by simp)
  | succ rem ih =>
    intro i v h
    simp only [clickLoop] at h ⊢
    by_cases hb1 : i < m.commits.length
    · rw [if_pos hb1] at h ⊢
      by_cases hb2 : v = t
      · rw [if_pos hb2] at h ⊢
        by_cases hb3 : m.cursor ≠ (i : Int)
        · rw [if_pos hb3] at h ⊢
          obtain ⟨hne, hcur, hlast⟩ := emitSelectionChanged_some _ _ h
          rw [hcur, hlast]
          exact ⟨by simpa using hne, rfl⟩
        · rw [if_neg hb3] at h
          exact absurd h (by simp)
      · rw [if_neg hb2] at h ⊢
        by_cases hb4 : (i : Int) = m.expandedIdx ∧ m.expandState.isSome = true
        · rw [if_pos hb4] at h ⊢
          by_cases hb5 : t > v + 1 - 1 ∧ t < v + 1 + expandedLineCount m
          · rw [if_pos hb5] at h
            by_cases hb6 : t - (v + 1) < metadataLineCount m
            · rw [if_pos hb6] at h
              exact absurd h (by simp)
            · rw [if_neg hb6] at h
              cases hes : m.expandState with
              | none =>
                simp only [hes] at h
                exact absurd h (by simp)
              | some es =>
                simp only [hes] at h
                cases hcf : clickFileLoop es (t - (v + 1) - metadataLineCount m)
                    es.files.length 0 0 with
                | none =>
                  simp only [hcf] at h
                  exact absurd h (by simp)
                | some fi =>
                  simp only [hcf] at h
                  exact absurd h (by simp)
          · rw [if_neg hb5] at h ⊢
            exact ih (i + 1) (v + 1 + expandedLineCount m) h
        · rw [if_neg hb4] at h ⊢
          exact ih (i + 1) (v + 1) h
    · rw [if_neg hb1] at h
      exact absurd h (by simp)

lemma handleClick_emit (m : NavModel) (y : Int) (cmd : NavCmd)
    (h : (handleClick m y).2 = some cmd) :
    (handleClick m y).1.cursor ≠ m.lastCursor ∧
    (handleClick m y).1.lastCursor = (handleClick m y).1.cursor := by
  rw [handleClick] at h ⊢
  exact clickLoop_emit m _ cmd m.commits.length 0 0 h

lemma handleFilesLoaded_none (m : NavModel) (hash : String)
    (files : List ChangedFile) : (handleFilesLoaded m hash files).2 = none := by
  rw [handleFilesLoaded]
  split_ifs <;>
    first
    | rfl
    | (cases hes : m.expandState
       · simp only [hes]
       · simp only [hes])

lemma handleFileDiffLoaded_none (m : NavModel) (hash filePath diff : String) :
    (handleFileDiffLoaded m hash filePath diff).2 = none := by
  rw [handleFileDiffLoaded]
  cases hes : m.expandState with
  | none => simp only [hes]
  | some es =>
    simp only [hes]
    split_ifs <;> rfl

lemma toggleExpand_no_emit (m : NavModel) (c : Commit) :
    (ToggleExpand m).2 ≠ some (NavCmd.selectionChanged c) := by
  rw [ToggleExpand]
  by_cases hx : isExpanded m = true
  · rw [if_pos hx]
    cases hes : m.expandState with
    | none =>
      simp only [expandCurrent]
      split_ifs <;> simp
    | some es =>
      simp only [hes]
      by_cases h5 : m.expandedIdx = m.cursor
      · rw [if_pos h5]
        by_cases h6 : 0 ≤ es.fileIndex ∧ es.fileIndex < (es.files.length : Int)
        · rw [if_pos h6]
          split_ifs <;> simp
        · rw [if_neg h6]
          simp
      · rw [if_neg h5]
        simp only [expandCurrent]
        split_ifs <;> simp
  · rw [if_neg hx]
    simp only [expandCurrent]
    split_ifs <;> simp

lemma update_emit (m : NavModel) (msg : NavMsg) (cmd : NavCmd)
    (h : (update m msg).2 = some cmd) :
    (update m msg).1.cursor ≠ m.lastCursor ∧
    (update m msg).1.lastCursor = (update m msg).1.cursor := by
  cases msg with
  | key s =>
    simp only [update] at h ⊢
    rw [handleKey] at h ⊢
    split_ifs at h ⊢
    · exact ⟨(moveCursorDown_emit m cmd h).1, (moveCursorDown_emit m cmd h).2.1⟩
    · exact ⟨(moveCursorUp_emit m cmd h).1, (moveCursorUp_emit m cmd h).2.1⟩
    · exact goToTop_emit m cmd h
    · exact goToBottom_emit m cmd h
    · exact pageDown_emit m cmd h
    · exact pageUp_emit m cmd h
  | mouse ev =>
    cases ev with
    | wheelUp =>
      simp only [update, handleMouse] at h ⊢
      exact handleMouseWheelUp_emit m cmd h
    | wheelDown =>
      simp only [update, handleMouse] at h ⊢
      exact handleMouseWheelDown_emit m cmd h
    | clickLeftRelease y =>
      simp only [update, handleMouse] at h ⊢
      exact handleClick_emit m y cmd h
    | other =>
      simp only [update, handleMouse] at h
      exact absurd h (by simp)
  | filesLoaded hh fs =>
    simp only [update] at h ⊢
    rw [handleFilesLoaded_none m hh fs] at h
    exact absurd h (by simp)
  | fileDiffLoaded hh p d =>
    simp only [update] at h ⊢
    rw [handleFileDiffLoaded_none m hh p d] at h
    exact absurd h (by simp)

/-- C5: a selection-changed command is produced by Update only when the
commit-row cursor after the event differs from the cursor recorded at the
last emission (and the new position is recorded); with a commit expanded,
moveCursorUp never emits and never moves the commit row, moveCursorDown
emits only when it actually leaves the commit row, and ToggleExpand (file
cursor movement, opening and closing diffs) never emits selection-changed. -/
theorem c5_selection_changed_discipline :
    (∀ (m : NavModel) (msg : NavMsg) (c : Commit),
      (update m msg).2 = some (NavCmd.selectionChanged c) →
      (update m msg).1.cursor ≠ m.lastCursor ∧
      (update m msg).1.lastCursor = (update m msg).1.cursor) ∧
    (∀ m : NavModel, isExpanded m = true →
      (moveCursorUp m).2 = none ∧ (moveCursorUp m).1.cursor = m.cursor) ∧
    (∀ (m : NavModel) (c : Commit), isExpanded m = true →
      (moveCursorDown m).2 = some (NavCmd.selectionChanged c) →
      (moveCursorDown m).1.cursor ≠ m.cursor) ∧
    (∀ (m : NavModel) (c : Commit),
      (ToggleExpand m).2 ≠ some (NavCmd.selectionChanged c)) := by
  refine ⟨?_, ?_, ?_, ?_⟩
  · intro m msg c h
    exact update_emit m msg _ h
  · intro m hx
    exact moveCursorUp_expanded m hx
  · intro m c _hx h
    exact (moveCursorDown_emit m _ h).2.2
  · intro m c
    exact toggleExpand_no_emit m c

/-- Evaluation of C5: on a two-commit model the key "j" emission satisfies
the discipline, and on the expanded model moveCursorUp stays put silently,
moveCursorDown leaves the commit row when it does emit, and ToggleExpand
emits no selection change. -/
theorem c5_selection_changed_discipline_witness :
    ((update c5Model (NavMsg.key "j")).1.cursor ≠ c5Model.lastCursor ∧
     (update c5Model (NavMsg.key "j")).1.lastCursor =
       (update c5Model (NavMsg.key "j")).1.cursor) ∧
    ((moveCursorUp c5ModelExp).2 = none ∧
     (moveCursorUp c5ModelExp).1.cursor = c5ModelExp.cursor) ∧
    ((moveCursorDown c5ModelExp).1.cursor ≠ c5ModelExp.cursor) ∧
    ((ToggleExpand c5ModelExp).2 ≠ some (NavCmd.selectionChanged c2CommitB)) :=
  ⟨c5_selection_changed_discipline.1 c5Model (NavMsg.key "j") c2CommitB (by decide),
   c5_selection_changed_discipline.2.1 c5ModelExp (by decide),
   c5_selection_changed_discipline.2.2.1 c5ModelExp c2CommitB (by decide) (by decide),
   c5_selection_changed_discipline.2.2.2 c5ModelExp c2CommitB⟩

end LG
